import Mathlib

/-!
# Verification of the Fallout Shelter save editor core (renderer.js)

This file gives a shallow embedding of the save-editor core of
`src/renderer.js`: the JSON document tree mutated by the editor, the
dot-path mutator `setNestedValue`, the batch editors
(`applyResourceChanges`, `maxAllResources`, `applyVaultChanges`,
`applyDwellerChanges`, `maxAllDwellers`) and the codec
(`encryptSaveData` / `decryptSaveData`), together with proofs about them.

JavaScript semantics relevant to the embedding:
* reading a property of a non-object yields `undefined` (modelled as
  `Option.none`), while reading a property of `null`/`undefined` throws a
  TypeError (modelled as `Except.error ()`);
* assigning a property of a primitive (number, string, boolean) is
  silently ignored in sloppy mode, while assigning a property of
  `null`/`undefined` throws;
* `if (x)` tests JavaScript truthiness: `null`, `false`, `0`, `NaN` and
  `""` are falsy; every object and array is truthy.

Deliberate modelling simplifications, each irrelevant to the theorems
below (no theorem exercises them): JavaScript arrays can carry named
properties, which the embedding does not represent (property access on an
array is modelled like access on a primitive); string values do not expose
`length`/index properties; `parseInt` does not auto-detect the `0x` hex
prefix; `parseFloat` does not recognize the `Infinity` literal beyond the
exact keyword.
-/

namespace FSSE

/-- JavaScript numbers as they occur in the editor: `NaN`, the two
infinities, and finite values (modelled as rationals; every numeric
literal appearing in the program is exactly representable). -/
inductive JSNum where
  | nan
  | inf
  | ninf
  | fin (q : Rat)
deriving DecidableEq

/-- JavaScript `isNaN` on an already-numeric value. -/
def JSNum.isNaN : JSNum → Bool
  | .nan => true
  | _ => false

/-- JavaScript `value >= 0` (false for `NaN` and `-Infinity`). -/
def JSNum.ge0 : JSNum → Bool
  | .nan => false
  | .inf => true
  | .ninf => false
  | .fin q => 0 ≤ q

/-- The JSON document tree produced by `JSON.parse` and mutated in place
by the editor.  Objects are ordered association lists, mirroring
JavaScript property-insertion order. -/
inductive JValue where
  | null
  | bool (b : Bool)
  | num (n : JSNum)
  | str (s : String)
  | obj (fields : List (String × JValue))
  | arr (elems : List JValue)

/-- JavaScript truthiness of a value. -/
def truthy : JValue → Bool
  | .null => false
  | .bool b => b
  | .num .nan => false
  | .num (.fin q) => q != 0
  | .num _ => true
  | .str s => s != ""
  | .obj _ => true
  | .arr _ => true

/-- First binding of `key` in an object's field list (JavaScript property
lookup). -/
def lookupField : List (String × JValue) → String → Option JValue
  | [], _ => none
  | (k, v) :: rest, key => if k = key then some v else lookupField rest key

/-- JavaScript property assignment on an object's field list: overwrite
the existing binding in place, or append a new binding at the end. -/
def setField : List (String × JValue) → String → JValue → List (String × JValue)
  | [], key, v => [(key, v)]
  | (k, w) :: rest, key, v =>
    if k = key then (k, v) :: rest else (k, w) :: setField rest key v

/-- Property read `v[key]`: `undefined` (`none`) unless `v` is an object
with the binding. -/
def getField : JValue → String → Option JValue
  | .obj f, key => lookupField f key
  | _, _ => none

/-- Iterated property read along a list of keys. -/
def getPath : JValue → List String → Option JValue
  | v, [] => some v
  | v, k :: rest =>
    match getField v k with
    | some c => getPath c rest
    | none => none

/-- Truthiness of a possibly-`undefined` value (`undefined` is falsy). -/
def otruthy : Option JValue → Bool
  | some v => truthy v
  | none => false

theorem truthy_obj (f : List (String × JValue)) : truthy (.obj f) = true := rfl

theorem lookupField_setField_self (f : List (String × JValue)) (k : String) (v : JValue) :
    lookupField (setField f k v) k = some v := by
  induction f with
  | nil => simp [setField, lookupField]
  | cons hd tl ih =>
    obtain ⟨k', w⟩ := hd
    by_cases h : k' = k <;> simp [setField, lookupField, h, ih]

theorem lookupField_setField_ne (f : List (String × JValue)) (k k' : String) (v : JValue)
    (h : k ≠ k') : lookupField (setField f k v) k' = lookupField f k' := by
  induction f with
  | nil => simp [setField, lookupField, h]
  | cons hd tl ih =>
    obtain ⟨k0, w⟩ := hd
    by_cases h0 : k0 = k
    · subst h0
      simp [setField, lookupField, h]
    · simp [setField, lookupField, h0, ih]

theorem setField_self (f : List (String × JValue)) (k : String) (v : JValue)
    (h : lookupField f k = some v) : setField f k v = f := by
  induction f with
  | nil => simp [lookupField] at h
  | cons hd tl ih =>
    obtain ⟨k0, w⟩ := hd
    by_cases h0 : k0 = k
    · subst h0
      simp [lookupField] at h
      simp [setField, h]
    · simp [lookupField, h0] at h
      simp [setField, h0, ih h]

theorem setField_setField (f : List (String × JValue)) (k : String) (a b : JValue) :
    setField (setField f k a) k b = setField f k b := by
  induction f with
  | nil => simp [setField]
  | cons hd tl ih =>
    obtain ⟨k0, w⟩ := hd
    by_cases h0 : k0 = k <;> simp [setField, h0, ih]

/-- Whitespace characters skipped by `parseFloat` / `parseInt`. -/
def isWS (c : Char) : Bool :=
  c == ' ' || c == '\t' || c == '\n' || c == '\r'

/-- Consume an optional leading sign; `true` means negative. -/
def parseSign : List Char → Bool × List Char
  | '-' :: rest => (true, rest)
  | '+' :: rest => (false, rest)
  | l => (false, l)

/-- Decimal digit string to a natural number. -/
def digitsToNat (l : List Char) : Nat :=
  l.foldl (fun a c => a * 10 + (c.toNat - 48)) 0

/-- Modelled from the spec: the JavaScript builtin `parseFloat` (the
browser runtime is not part of the repository).  Skips leading
whitespace, consumes an optional sign, then the longest prefix that is
`Infinity` or a decimal literal `digits [. digits] [e [sign] digits]`;
yields `NaN` when no prefix parses. -/
def parseFloatChars (l : List Char) : JSNum :=
  let l1 := l.dropWhile isWS
  let sr := parseSign l1
  let neg := sr.1
  let l2 := sr.2
  if l2.take 8 = "Infinity".data then (if neg then .ninf else .inf)
  else
    let ip := l2.takeWhile Char.isDigit
    let l3 := l2.dropWhile Char.isDigit
    let fpr : List Char × List Char :=
      match l3 with
      | '.' :: r => (r.takeWhile Char.isDigit, r.dropWhile Char.isDigit)
      | _ => ([], l3)
    let fp := fpr.1
    let l4 := fpr.2
    if ip.isEmpty && fp.isEmpty then .nan
    else
      let m : Int := digitsToNat (ip ++ fp)
      let msgn : Int := if neg then -m else m
      let er : Bool × List Char :=
        match l4 with
        | 'e' :: r | 'E' :: r =>
          let sr2 := parseSign r
          (sr2.1, sr2.2.takeWhile Char.isDigit)
        | _ => (false, [])
      let e := digitsToNat er.2
      .fin (if er.1 then mkRat msgn (10 ^ (fp.length + e))
            else mkRat (msgn * ((10 : Nat) ^ e : Nat)) (10 ^ fp.length))

/-- `parseFloat` on a string. -/
def parseFloat (s : String) : JSNum := parseFloatChars s.data

/-- Modelled from the spec: the JavaScript builtin `parseInt` without an
explicit radix, as used by the editor: skip whitespace, optional sign,
longest decimal-digit prefix; `NaN` (here `none`) when no digit
follows. -/
def parseIntChars (l : List Char) : Option Int :=
  let l1 := l.dropWhile isWS
  let sr := parseSign l1
  let ds := sr.2.takeWhile Char.isDigit
  if ds.isEmpty then none
  else some (if sr.1 then -(digitsToNat ds : Int) else (digitsToNat ds : Int))

/-- `parseInt` on a string. -/
def parseIntJS (s : String) : Option Int := parseIntChars s.data

/-- The JavaScript `path.split('.')` on the underlying character list
(structural recursion, so that closed terms evaluate definitionally).
Always returns at least one segment, like its JavaScript counterpart. -/
def splitDot : List Char → List (List Char)
  | [] => [[]]
  | c :: rest =>
    match splitDot rest with
    | [] => [[]]
    | g :: gs => if c = '.' then [] :: g :: gs else (c :: g) :: gs

/-- Split a path string on dots. -/
def splitPath (path : String) : List String :=
  (splitDot path.data).map (fun l => String.mk l)

/-! ## Path mutator: `setNestedValue` (renderer.js lines 733-745)

The imperative walk is rendered as a recursion on the remaining keys.
`Except.error ()` marks the runs in which the JavaScript original throws
a `TypeError` (walking into `null`, or continuing a walk after it fell
off into `undefined` at a primitive).  Writing the final key on a
primitive is silently ignored, exactly as sloppy-mode JavaScript does. -/

def setKeysJ : JValue → List String → JValue → Except Unit JValue
  | cur, [], _ => .ok cur
  | cur, [k], v =>
    match cur with
    | .obj f => .ok (.obj (setField f k v))
    | .null => .error ()
    | other => .ok other
  | cur, k :: k2 :: rest, v =>
    match cur with
    | .obj f =>
      let child :=
        match lookupField f k with
        | some c => if truthy c then c else .obj []
        | none => .obj []
      (setKeysJ child (k2 :: rest) v).map (fun c' => .obj (setField f k c'))
    | _ => .error ()

/-- `setNestedValue(obj, path, value)`: split the path on dots and walk. -/
def setNestedValue (obj : JValue) (path : String) (v : JValue) : Except Unit JValue :=
  setKeysJ obj (splitPath path) v

/-- Modelled from the spec: the Path Mutator read
`get(tree, path) -> value | NotFound` (the source reads fields through
ad-hoc expressions; no standalone `get` function exists in src/). -/
def getKeys : JValue → List String → Option JValue
  | cur, [] => some cur
  | cur, k :: rest =>
    match cur with
    | .obj f =>
      match lookupField f k with
      | some c => getKeys c rest
      | none => none
    | _ => none

/-- `get` over a dot-separated path. -/
def getNestedValue (obj : JValue) (path : String) : Option JValue :=
  getKeys obj (splitPath path)

/-- The walk of `setNestedValue` stays inside object containers: every
existing truthy value met along the path (including the final container)
is an object; falsy or missing intermediates are fine (they are replaced
by fresh empty objects). -/
def walkOk : JValue → List String → Bool
  | .obj _, [_] => true
  | .obj f, k :: k2 :: rest =>
    (match lookupField f k with
     | some c =>
       if truthy c then
         match c with
         | .obj _ => walkOk c (k2 :: rest)
         | _ => false
       else walkOk (.obj []) (k2 :: rest)
     | none => walkOk (.obj []) (k2 :: rest))
  | _, _ => false

theorem getKeys_setKeysJ (keys : List String) :
    ∀ (tree v : JValue), walkOk tree keys = true →
    ∃ t', setKeysJ tree keys v = .ok t' ∧ getKeys t' keys = some v := by
  induction keys with
  | nil =>
    intro tree v h
    cases tree <;> simp [walkOk] at h
  | cons k rest ih =>
    intro tree v h
    cases rest with
    | nil =>
      cases tree <;> simp [walkOk] at h
      case obj f =>
        refine ⟨.obj (setField f k v), rfl, ?_⟩
        simp [getKeys, lookupField_setField_self]
    | cons k2 rest2 =>
      cases tree with
      | obj f =>
        rcases hl : lookupField f k with _ | c
        · have h' : walkOk (.obj []) (k2 :: rest2) = true := by
            simpa [walkOk, hl] using h
          obtain ⟨c', hset, hget⟩ := ih (.obj []) v h'
          refine ⟨.obj (setField f k c'), ?_, ?_⟩
          · simp [setKeysJ, hl, hset, Except.map]
          · simpa [getKeys, lookupField_setField_self] using hget
        · by_cases ht : truthy c
          · cases c with
            | obj g =>
              simp [walkOk, hl, ht] at h
              obtain ⟨c', hset, hget⟩ := ih (.obj g) v h
              refine ⟨.obj (setField f k c'), ?_, ?_⟩
              · simp [setKeysJ, hl, ht, hset, Except.map]
              · simpa [getKeys, lookupField_setField_self] using hget
            | null => simp [truthy] at ht
            | bool b => simp [walkOk, hl, ht] at h
            | num n => simp [walkOk, hl, ht] at h
            | str s => simp [walkOk, hl, ht] at h
            | arr es => simp [walkOk, hl, ht] at h
          · have h' : walkOk (.obj []) (k2 :: rest2) = true := by
              simpa [walkOk, hl, ht] using h
            obtain ⟨c', hset, hget⟩ := ih (.obj []) v h'
            refine ⟨.obj (setField f k c'), ?_, ?_⟩
            · simp [setKeysJ, hl, ht, hset, Except.map]
            · simpa [getKeys, lookupField_setField_self] using hget
      | null => simp [walkOk] at h
      | bool b => simp [walkOk] at h
      | num n => simp [walkOk] at h
      | str s => simp [walkOk] at h
      | arr es => simp [walkOk] at h

/-- C2: after `setNestedValue(tree, P, V)`, reading path `P` yields `V`.
This holds under the amended precondition `walkOk`: every pre-existing
truthy value met along the path (including the final container) is an
object; falsy or missing intermediates are replaced by fresh empty
objects.  It does NOT hold "regardless of the tree's prior shape" — see
the counterexample theorem. -/
theorem claim_C2 (tree : JValue) (path : String) (v : JValue)
    (h : walkOk tree (splitPath path) = true) :
    ∃ t', setNestedValue tree path v = .ok t' ∧ getNestedValue t' path = some v :=
  getKeys_setKeysJ (splitPath path) tree v h

/-- C2 witness: concrete instance `set({}, "a.b.c", 5)` then `get` of
`"a.b.c"` returns `5`, with the missing intermediates created. -/
theorem claim_C2_witness :
    walkOk (.obj []) (splitPath "a.b.c") = true ∧
    ∃ t', setNestedValue (.obj []) "a.b.c" (.num (.fin 5)) = .ok t' ∧
      getNestedValue t' "a.b.c" = some (.num (.fin 5)) :=
  ⟨by rfl, claim_C2 (.obj []) "a.b.c" (.num (.fin 5)) (by rfl)⟩

/-- C2 counterexample: on the tree `{a: 1}` the path `"a.b"` walks into
the truthy primitive `1`; the JavaScript write is silently lost (sloppy
mode ignores property stores on primitives), so the subsequent get
returns NotFound instead of the written value — the claim's
"regardless of the tree's prior shape" is false. -/
theorem claim_C2_cex :
    setNestedValue (.obj [("a", .num (.fin 1))]) "a.b" (.num (.fin 7)) =
      .ok (.obj [("a", .num (.fin 1))]) ∧
    getNestedValue (.obj [("a", .num (.fin 1))]) "a.b" = none :=
  ⟨rfl, rfl⟩

/-! ## Resource batch editor (renderer.js lines 276-347)

The DOM input boxes are modelled as a map `String → Option String` from
element id to the element's current text (`none` when
`document.getElementById` returns `null`). -/

/-- JavaScript `String.prototype.trim` (structural implementation). -/
def trimChars (l : List Char) : List Char :=
  ((l.dropWhile isWS).reverse.dropWhile isWS).reverse

/-- `s.trim()` on strings. -/
def jsTrim (s : String) : String := String.mk (trimChars s.data)

/-- The input-element → raw resource key table (renderer.js 286-297),
in JavaScript object-literal insertion order. -/
def resourceInputMap : List (String × String) :=
  [("caps-input", "Nuka"), ("food-input", "Food"), ("water-input", "Water"),
   ("power-input", "Energy"), ("stimpaks-input", "StimPack"),
   ("radaway-input", "RadAway"), ("quantum-input", "NukaColaQuantum"),
   ("lunchbox-input", "Lunchbox"), ("mrhandy-input", "MrHandy"),
   ("petcarrier-input", "PetCarrier")]

/-- The validation applied to one resource input (renderer.js 301-310):
the element exists, its value is non-empty after trimming, `parseFloat`
of it is not `NaN`, and it is `>= 0`.  Returns the number to write. -/
def validStr (s : String) : Option JSNum :=
  if trimChars s.data = [] then none
  else
    let v := parseFloat s
    if !v.isNaN && v.ge0 then some v else none

/-- Validation of one input element: the element must exist, and its
value must pass `validStr`. -/
def validOf (inputs : String → Option String) (inputId : String) : Option JSNum :=
  match inputs inputId with
  | none => none
  | some s => validStr s

/-- Applied-changes count of the resource loop. -/
def countValid (inputs : String → Option String) (l : List (String × String)) : Nat :=
  l.countP (fun p => (validOf inputs p.1).isSome)

/-- One write `resources[resourceKey] = value`: throws on
`undefined`/`null`, is silently ignored on a primitive (the count is
still incremented by the caller), and updates an object in place. -/
def writeResource (rs : Option JValue) (key : String) (v : JSNum) :
    Except Unit (Option JValue) :=
  match rs with
  | none => .error ()
  | some .null => .error ()
  | some (.obj f) => .ok (some (.obj (setField f key (.num v))))
  | some other => .ok (some other)

/-- The `Object.entries(resourceMap).forEach` loop of
`applyResourceChanges`, threading the resources value and the
applied-changes count. -/
def resourceLoop (inputs : String → Option String) :
    List (String × String) → Option JValue → Except Unit (Option JValue × Nat)
  | [], rs => .ok (rs, 0)
  | (inputId, key) :: rest, rs =>
    match validOf inputs inputId with
    | none => resourceLoop inputs rest rs
    | some v =>
      match writeResource rs key v with
      | .error e => .error e
      | .ok rs2 =>
        match resourceLoop inputs rest rs2 with
        | .error e => .error e
        | .ok pr => .ok (pr.1, pr.2 + 1)

/-- Write the (aliased, possibly mutated) resources value back into the
document at `vault.storage.resources`; mirrors the in-place aliasing of
the JavaScript original, which only ever reaches the loop when the
guard passed. -/
def putResources (doc : JValue) (rs : Option JValue) : JValue :=
  match rs with
  | none => doc
  | some r =>
    match doc with
    | .obj df =>
      match lookupField df "vault" with
      | some (.obj vf) =>
        match lookupField vf "storage" with
        | some (.obj sf) =>
          .obj (setField df "vault" (.obj (setField vf "storage"
            (.obj (setField sf "resources" r)))))
        | _ => doc
      | _ => doc
    | _ => doc

/-- `applyResourceChanges` (renderer.js 276-323).  The early return on a
missing/falsy `vault` or `vault.storage` reports zero changes; a run in
which the JavaScript original throws a TypeError is `Except.error`. -/
def applyResourceChanges (inputs : String → Option String) (doc : JValue) :
    Except Unit (JValue × Nat) :=
  if !(truthy doc && otruthy (getField doc "vault") &&
       otruthy (getPath doc ["vault", "storage"])) then .ok (doc, 0)
  else
    match resourceLoop inputs resourceInputMap
        (getPath doc ["vault", "storage", "resources"]) with
    | .error e => .error e
    | .ok (rs', n) => .ok (putResources doc rs', n)

/-- The ceilings written by `maxAllResources` (renderer.js 326-337). -/
def maxValues : List (String × Nat) :=
  [("caps-input", 999999), ("food-input", 999999), ("water-input", 999999),
   ("power-input", 999999), ("stimpaks-input", 999999), ("radaway-input", 999999),
   ("quantum-input", 999), ("lunchbox-input", 999), ("mrhandy-input", 99),
   ("petcarrier-input", 999)]

/-- Assoc lookup in the ceilings table. -/
def lookupNat : List (String × Nat) → String → Option Nat
  | [], _ => none
  | (k, v) :: rest, key => if k = key then some v else lookupNat rest key

/-- `maxAllResources` (renderer.js 325-347), first half: store each
ceiling into the corresponding input element when it exists (the number
is coerced to its decimal string by the DOM). -/
def maxInputs (inputs : String → Option String) : String → Option String := fun id =>
  match lookupNat maxValues id with
  | some n =>
    match inputs id with
    | some _ => some (Nat.repr n)
    | none => none
  | none => inputs id

/-- `maxAllResources` continued: with the ceilings stored, run
`applyResourceChanges`. -/
def maxAllResources (inputs : String → Option String) (doc : JValue) :
    Except Unit (JValue × Nat) :=
  applyResourceChanges (maxInputs inputs) doc

/-- Read a resource entry of a document. -/
def getResource (doc : JValue) (key : String) : Option JValue :=
  getPath doc ["vault", "storage", "resources", key]

/-- The ten raw resource keys the editor knows. -/
def tenKeys : List String :=
  ["Nuka", "Food", "Water", "Energy", "StimPack", "RadAway",
   "NukaColaQuantum", "Lunchbox", "MrHandy", "PetCarrier"]

/-- Remove a set of keys from an object's field list. -/
def eraseKeys (f : List (String × JValue)) (ks : List String) : List (String × JValue) :=
  f.filter (fun p => !decide (p.1 ∈ ks))

/-- A document with its ten known resource entries removed; used to state
the frame property of `applyResourceChanges`. -/
def stripResources (doc : JValue) : JValue :=
  match getPath doc ["vault", "storage", "resources"] with
  | some (.obj rf) => putResources doc (some (.obj (eraseKeys rf tenKeys)))
  | _ => doc

theorem getPath_cons (v : JValue) (k : String) (rest : List String) :
    getPath v (k :: rest) = (getField v k).bind (fun c => getPath c rest) := by
  cases h : getField v k <;> simp [getPath, h]

theorem getField_eq_some (v : JValue) (k : String) (c : JValue)
    (h : getField v k = some c) : ∃ f, v = .obj f ∧ lookupField f k = some c := by
  cases v <;> simp [getField] at h
  case obj f => exact ⟨f, rfl, h⟩

theorem getPath3_structure (doc : JValue) (a b c : String) (x : JValue)
    (h : getPath doc [a, b, c] = some x) :
    ∃ df vf sf, doc = .obj df ∧ lookupField df a = some (.obj vf) ∧
      lookupField vf b = some (.obj sf) ∧ lookupField sf c = some x := by
  rw [getPath_cons] at h
  rcases Option.bind_eq_some.mp h with ⟨V, hV, h⟩
  rw [getPath_cons] at h
  rcases Option.bind_eq_some.mp h with ⟨S, hS, h⟩
  rw [getPath_cons] at h
  rcases Option.bind_eq_some.mp h with ⟨X, hX, h⟩
  simp [getPath] at h
  subst h
  obtain ⟨df, rfl, h1⟩ := getField_eq_some _ _ _ hV
  obtain ⟨vf, rfl, h2⟩ := getField_eq_some _ _ _ hS
  obtain ⟨sf, rfl, h3⟩ := getField_eq_some _ _ _ hX
  exact ⟨df, vf, sf, rfl, h1, h2, h3⟩

theorem eraseKeys_setField (f : List (String × JValue)) (k : String) (v : JValue)
    (ks : List String) (h : k ∈ ks) :
    eraseKeys (setField f k v) ks = eraseKeys f ks := by
  induction f with
  | nil => simp [setField, eraseKeys, List.filter, h]
  | cons hd tl ih =>
    obtain ⟨k0, w⟩ := hd
    by_cases h0 : k0 = k
    · subst h0
      simp [setField, eraseKeys, List.filter, h]
    · simp only [setField, h0, if_false]
      simp only [eraseKeys] at ih ⊢
      simp [List.filter_cons, ih]

theorem resourceLoop_obj (inputs : String → Option String) (l : List (String × String))
    (ks : List String) (hsub : ∀ p ∈ l, p.2 ∈ ks) :
    ∀ rf, (l.map Prod.snd).Nodup →
    ∃ rf', resourceLoop inputs l (some (.obj rf)) =
        .ok (some (.obj rf'), countValid inputs l) ∧
      (∀ p ∈ l, lookupField rf' p.2 =
        (match validOf inputs p.1 with
         | some v => some (.num v)
         | none => lookupField rf p.2)) ∧
      (∀ key, key ∉ l.map Prod.snd → lookupField rf' key = lookupField rf key) ∧
      eraseKeys rf' ks = eraseKeys rf ks := by
  induction l with
  | nil =>
    intro rf _
    exact ⟨rf, rfl, by simp, fun _ _ => rfl, rfl⟩
  | cons p rest ih =>
    obtain ⟨iid, key⟩ := p
    intro rf hnd
    simp only [List.map_cons, List.nodup_cons] at hnd
    obtain ⟨hkey, hnd⟩ := hnd
    have hsub' : ∀ p ∈ rest, p.2 ∈ ks := fun p hp => hsub p (List.mem_cons_of_mem _ hp)
    cases hv : validOf inputs iid with
    | none =>
      obtain ⟨rf', hloop, hmem, hout, herase⟩ := ih hsub' rf hnd
      refine ⟨rf', ?_, ?_, ?_, herase⟩
      · simp [resourceLoop, hv, hloop, countValid, List.countP_cons]
      · intro p hp
        rcases List.mem_cons.mp hp with rfl | hp
        · simp only [hv]
          exact hout key hkey
        · exact hmem p hp
      · intro k hk
        simp only [List.map_cons, List.mem_cons, not_or] at hk
        exact hout k hk.2
    | some v =>
      obtain ⟨rf', hloop, hmem, hout, herase⟩ := ih hsub' (setField rf key (.num v)) hnd
      refine ⟨rf', ?_, ?_, ?_, ?_⟩
      · simp [resourceLoop, hv, writeResource, hloop, countValid, List.countP_cons]
      · intro p hp
        rcases List.mem_cons.mp hp with rfl | hp
        · simp only [hv]
          rw [hout key hkey, lookupField_setField_self]
        · rw [hmem p hp]
          cases hv2 : validOf inputs p.1 with
          | none =>
            have hne : key ≠ p.2 := fun he => hkey (he ▸ List.mem_map_of_mem Prod.snd hp)
            simp [lookupField_setField_ne _ _ _ _ hne]
          | some w => simp
      · intro k hk
        simp only [List.map_cons, List.mem_cons, not_or] at hk
        rw [hout k hk.2, lookupField_setField_ne _ _ _ _ (fun he => hk.1 he.symm)]
      · rw [herase, eraseKeys_setField _ _ _ _ (hsub (iid, key) (List.mem_cons_self _ _))]

theorem resourceLoop_throwing (inputs : String → Option String) (l : List (String × String))
    (rs : Option JValue) (hrs : rs = none ∨ rs = some .null) :
    resourceLoop inputs l rs =
      if countValid inputs l = 0 then .ok (rs, 0) else .error () := by
  induction l with
  | nil => simp [resourceLoop, countValid]
  | cons p rest ih =>
    obtain ⟨iid, key⟩ := p
    cases hv : validOf inputs iid with
    | none =>
      have hc : countValid inputs ((iid, key) :: rest) = countValid inputs rest := by
        simp [countValid, List.countP_cons, hv]
      simp only [resourceLoop, hv, hc, ih]
    | some v =>
      have hc : countValid inputs ((iid, key) :: rest) = countValid inputs rest + 1 := by
        simp [countValid, List.countP_cons, hv]
      have hw : writeResource rs key v = .error () := by
        rcases hrs with rfl | rfl <;> simp [writeResource]
      simp only [resourceLoop, hv, hw, hc]
      simp

theorem resourceLoop_prim (inputs : String → Option String) (l : List (String × String))
    (c : JValue) (hobj : ∀ f, c ≠ .obj f) (hnull : c ≠ .null) :
    resourceLoop inputs l (some c) = .ok (some c, countValid inputs l) := by
  induction l with
  | nil => simp [resourceLoop, countValid]
  | cons p rest ih =>
    obtain ⟨iid, key⟩ := p
    cases hv : validOf inputs iid with
    | none => simp [resourceLoop, hv, ih, countValid, List.countP_cons]
    | some v =>
      have hw : writeResource (some c) key v = .ok (some c) := by
        cases c <;> simp [writeResource] at hobj hnull ⊢
      simp [resourceLoop, hv, hw, ih, countValid, List.countP_cons]

theorem getPath_single (v : JValue) (k : String) : getPath v [k] = getField v k := by
  cases h : getField v k <;> simp [getPath, h]

theorem getPath_append (v : JValue) (l1 l2 : List String) :
    getPath v (l1 ++ l2) = (getPath v l1).bind (fun c => getPath c l2) := by
  induction l1 generalizing v with
  | nil => simp [getPath]
  | cons k rest ih =>
    rw [List.cons_append, getPath_cons, getPath_cons]
    cases h : getField v k <;> simp [ih]

theorem putResources_eq (df vf sf : List (String × JValue)) (r : JValue)
    (hv : lookupField df "vault" = some (.obj vf))
    (hs : lookupField vf "storage" = some (.obj sf)) :
    putResources (.obj df) (some r) =
      .obj (setField df "vault" (.obj (setField vf "storage"
        (.obj (setField sf "resources" r))))) := by
  simp [putResources, hv, hs]

theorem getPath_putResources (df vf sf : List (String × JValue)) (r : JValue)
    (hv : lookupField df "vault" = some (.obj vf))
    (hs : lookupField vf "storage" = some (.obj sf)) :
    getPath (putResources (.obj df) (some r)) ["vault", "storage", "resources"] = some r := by
  rw [putResources_eq df vf sf r hv hs]
  simp [getPath, getField, lookupField_setField_self]

theorem getResource_putResources (df vf sf : List (String × JValue)) (r : JValue)
    (hv : lookupField df "vault" = some (.obj vf))
    (hs : lookupField vf "storage" = some (.obj sf)) (key : String) :
    getResource (putResources (.obj df) (some r)) key = getField r key := by
  have : (["vault", "storage", "resources", key] : List String) =
      ["vault", "storage", "resources"] ++ [key] := rfl
  rw [getResource, this, getPath_append, getPath_putResources df vf sf r hv hs]
  simp [getPath_single]

theorem getResource_src (df vf sf : List (String × JValue)) (x : JValue)
    (hv : lookupField df "vault" = some (.obj vf))
    (hs : lookupField vf "storage" = some (.obj sf))
    (hr : lookupField sf "resources" = some x) (key : String) :
    getResource (.obj df) key = getField x key := by
  have : (["vault", "storage", "resources", key] : List String) =
      ["vault", "storage", "resources"] ++ [key] := rfl
  rw [getResource, this, getPath_append]
  have h3 : getPath (.obj df) ["vault", "storage", "resources"] = some x := by
    simp [getPath, getField, hv, hs, hr]
  rw [h3]
  simp [getPath_single]

theorem putResources_putResources (df vf sf : List (String × JValue)) (r1 r2 : JValue)
    (hv : lookupField df "vault" = some (.obj vf))
    (hs : lookupField vf "storage" = some (.obj sf)) :
    putResources (putResources (.obj df) (some r1)) (some r2) =
      putResources (.obj df) (some r2) := by
  rw [putResources_eq df vf sf r1 hv hs,
    putResources_eq _ _ _ r2 (lookupField_setField_self df "vault" _)
      (lookupField_setField_self vf "storage" _),
    putResources_eq df vf sf r2 hv hs]
  simp [setField_setField]

theorem putResources_id (df vf sf : List (String × JValue)) (x : JValue)
    (hv : lookupField df "vault" = some (.obj vf))
    (hs : lookupField vf "storage" = some (.obj sf))
    (hr : lookupField sf "resources" = some x) :
    putResources (.obj df) (some x) = .obj df := by
  rw [putResources_eq df vf sf x hv hs, setField_self sf _ _ hr,
    setField_self vf _ _ hs, setField_self df _ _ hv]

theorem getField_putResources_top (df vf sf : List (String × JValue)) (r : JValue)
    (hv : lookupField df "vault" = some (.obj vf))
    (hs : lookupField vf "storage" = some (.obj sf)) (k : String) (hk : "vault" ≠ k) :
    getField (putResources (.obj df) (some r)) k = getField (.obj df) k := by
  rw [putResources_eq df vf sf r hv hs]
  simp [getField, lookupField_setField_ne _ _ _ _ hk]

theorem getPath_putResources_vault (df vf sf : List (String × JValue)) (r : JValue)
    (hv : lookupField df "vault" = some (.obj vf))
    (hs : lookupField vf "storage" = some (.obj sf)) (k : String) (hk : "storage" ≠ k) :
    getPath (putResources (.obj df) (some r)) ["vault", k] =
      getPath (.obj df) ["vault", k] := by
  rw [putResources_eq df vf sf r hv hs]
  simp [getPath, getField, hv, lookupField_setField_self,
    lookupField_setField_ne _ _ _ _ hk]

/-- Main helper: on a document whose `vault.storage.resources` is an
object, `applyResourceChanges` succeeds, applies exactly the valid edits,
counts them, and touches nothing else. -/
theorem applyResourceChanges_obj (inputs : String → Option String) (doc : JValue)
    (rf : List (String × JValue))
    (h : getPath doc ["vault", "storage", "resources"] = some (.obj rf)) :
    ∃ rf', applyResourceChanges inputs doc =
        .ok (putResources doc (some (.obj rf')), countValid inputs resourceInputMap) ∧
      (∀ p ∈ resourceInputMap, lookupField rf' p.2 =
        (match validOf inputs p.1 with
         | some v => some (.num v)
         | none => lookupField rf p.2)) ∧
      eraseKeys rf' tenKeys = eraseKeys rf tenKeys ∧
      (∀ key, getResource (putResources doc (some (.obj rf'))) key = lookupField rf' key) ∧
      (∀ key, getResource doc key = lookupField rf key) := by
  obtain ⟨df, vf, sf, rfl, hv, hs, hr⟩ := getPath3_structure _ _ _ _ _ h
  have hguard : (truthy (.obj df) && otruthy (getField (.obj df) "vault") &&
      otruthy (getPath (.obj df) ["vault", "storage"])) = true := by
    simp [truthy, getField, hv, otruthy, getPath, hs]
  obtain ⟨rf', hloop, hmem, hout, herase⟩ :=
    resourceLoop_obj inputs resourceInputMap tenKeys (by decide) rf (by decide)
  refine ⟨rf', ?_, hmem, herase, ?_, ?_⟩
  · simp only [applyResourceChanges, hguard, Bool.not_true, Bool.false_eq_true, if_false, h,
      hloop]
  · intro key
    rw [getResource_putResources df vf sf _ hv hs key]
    simp [getField]
  · intro key
    rw [getResource_src df vf sf _ hv hs hr key]
    simp [getField]

/-- C3 (amended): for every document whose `vault.storage.resources` is
an object container, `applyResourceChanges` writes exactly those edits
whose value is numeric and ≥ 0 to the aliased raw resource key, returns
the number of such edits as its applied count, and silently skips (and
leaves unchanged) every non-numeric, NaN, or negative edit, raising no
error.  The un-amended "for every tree" fails when the resources object
itself is missing — see the counterexample. -/
theorem claim_C3 (inputs : String → Option String) (doc : JValue)
    (rf : List (String × JValue))
    (h : getPath doc ["vault", "storage", "resources"] = some (.obj rf)) :
    ∃ doc', applyResourceChanges inputs doc =
        .ok (doc', countValid inputs resourceInputMap) ∧
      ∀ p ∈ resourceInputMap, getResource doc' p.2 =
        (match validOf inputs p.1 with
         | some v => some (.num v)
         | none => getResource doc p.2) := by
  obtain ⟨rf', hrun, hmem, _, hget, hsrc⟩ := applyResourceChanges_obj inputs doc rf h
  refine ⟨_, hrun, ?_⟩
  intro p hp
  rw [hget p.2, hsrc p.2, hmem p hp]

/-- C3 witness input table: only the `caps` box is present, holding `-5`. -/
def w3in : String → Option String := fun id =>
  if id = "caps-input" then some "-5" else none

/-- C3 witness document: 100 caps in storage. -/
def w3doc : JValue :=
  .obj [("vault", .obj [("storage", .obj [("resources",
    .obj [("Nuka", .num (.fin 100))])])])]

/-- C3 witness: the spec's concrete scenario `{caps: -5}`: the applied
count is 0 and every resource, `caps` included, is unchanged. -/
theorem claim_C3_witness :
    countValid w3in resourceInputMap = 0 ∧
    ∃ doc', applyResourceChanges w3in w3doc =
        .ok (doc', countValid w3in resourceInputMap) ∧
      ∀ p ∈ resourceInputMap, getResource doc' p.2 =
        (match validOf w3in p.1 with
         | some v => some (.num v)
         | none => getResource w3doc p.2) :=
  ⟨by decide, claim_C3 w3in w3doc [("Nuka", .num (.fin 100))] (by rfl)⟩

/-- C3 counterexample input table: the `caps` box holds the valid edit `5`. -/
def c3in : String → Option String := fun id =>
  if id = "caps-input" then some "5" else none

/-- C3 counterexample document: `vault.storage` exists but has no
`resources` key. -/
def c3doc : JValue := .obj [("vault", .obj [("storage", .obj [])])]

/-- C3 counterexample: with `vault.storage.resources` absent and the
valid edit `{caps: 5}` pending, the claim says the edit is written and
counted; the code instead throws a TypeError
(`resources[resourceKey] = value` on `undefined`). -/
theorem claim_C3_cex : applyResourceChanges c3in c3doc = .error () := by rfl

/-- The raw-key ceilings of `maxAllResources`. -/
def maxRaw : List (String × Nat) :=
  [("Nuka", 999999), ("Food", 999999), ("Water", 999999), ("Energy", 999999),
   ("StimPack", 999999), ("RadAway", 999999), ("NukaColaQuantum", 999),
   ("Lunchbox", 999), ("MrHandy", 99), ("PetCarrier", 999)]

/-- C4: on a document with the resource section (and all ten input
elements present in the DOM), `maxAllResources` sets every known
resource to its specific ceiling — 999999 for caps/food/water/power/
stimpaks/radaway, 999 for quantum/lunchbox/pet carrier, 99 for the robot
companion — via `applyResourceChanges`, reporting 10 applied changes. -/
theorem claim_C4 (inputs : String → Option String) (doc : JValue)
    (rf : List (String × JValue))
    (h : getPath doc ["vault", "storage", "resources"] = some (.obj rf))
    (hin : ∀ p ∈ resourceInputMap, (inputs p.1).isSome = true) :
    ∃ doc', maxAllResources inputs doc = .ok (doc', 10) ∧
      ∀ p ∈ maxRaw, getResource doc' p.1 = some (.num (.fin p.2)) := by
  obtain ⟨rf', hrun, hmem, _, hget, _⟩ := applyResourceChanges_obj (maxInputs inputs) doc rf h
  have hvo : ∀ iid n, lookupNat maxValues iid = some n → (inputs iid).isSome = true →
      validOf (maxInputs inputs) iid = validStr (Nat.repr n) := by
    intro iid n hl hi
    obtain ⟨s, hs⟩ := Option.isSome_iff_exists.mp hi
    simp [validOf, maxInputs, hl, hs]
  have h1 : validOf (maxInputs inputs) "caps-input" = some (.fin 999999) := by
    rw [hvo "caps-input" 999999 rfl (hin ("caps-input", "Nuka") (by decide))]; decide
  have h2 : validOf (maxInputs inputs) "food-input" = some (.fin 999999) := by
    rw [hvo "food-input" 999999 rfl (hin ("food-input", "Food") (by decide))]; decide
  have h3 : validOf (maxInputs inputs) "water-input" = some (.fin 999999) := by
    rw [hvo "water-input" 999999 rfl (hin ("water-input", "Water") (by decide))]; decide
  have h4 : validOf (maxInputs inputs) "power-input" = some (.fin 999999) := by
    rw [hvo "power-input" 999999 rfl (hin ("power-input", "Energy") (by decide))]; decide
  have h5 : validOf (maxInputs inputs) "stimpaks-input" = some (.fin 999999) := by
    rw [hvo "stimpaks-input" 999999 rfl (hin ("stimpaks-input", "StimPack") (by decide))]
    decide
  have h6 : validOf (maxInputs inputs) "radaway-input" = some (.fin 999999) := by
    rw [hvo "radaway-input" 999999 rfl (hin ("radaway-input", "RadAway") (by decide))]
    decide
  have h7 : validOf (maxInputs inputs) "quantum-input" = some (.fin 999) := by
    rw [hvo "quantum-input" 999 rfl (hin ("quantum-input", "NukaColaQuantum") (by decide))]
    decide
  have h8 : validOf (maxInputs inputs) "lunchbox-input" = some (.fin 999) := by
    rw [hvo "lunchbox-input" 999 rfl (hin ("lunchbox-input", "Lunchbox") (by decide))]
    decide
  have h9 : validOf (maxInputs inputs) "mrhandy-input" = some (.fin 99) := by
    rw [hvo "mrhandy-input" 99 rfl (hin ("mrhandy-input", "MrHandy") (by decide))]; decide
  have h10 : validOf (maxInputs inputs) "petcarrier-input" = some (.fin 999) := by
    rw [hvo "petcarrier-input" 999 rfl (hin ("petcarrier-input", "PetCarrier") (by decide))]
    decide
  have hcnt : countValid (maxInputs inputs) resourceInputMap = 10 := by
    simp [countValid, resourceInputMap, List.countP_cons, h1, h2, h3, h4, h5, h6, h7, h8,
      h9, h10]
  refine ⟨_, by rw [maxAllResources, hrun, hcnt], ?_⟩
  intro p hp
  simp only [maxRaw, List.mem_cons, List.not_mem_nil, or_false] at hp
  rcases hp with rfl | rfl | rfl | rfl | rfl | rfl | rfl | rfl | rfl | rfl
  · rw [hget, hmem ("caps-input", "Nuka") (by decide), h1]
    rfl
  · rw [hget, hmem ("food-input", "Food") (by decide), h2]
    rfl
  · rw [hget, hmem ("water-input", "Water") (by decide), h3]
    rfl
  · rw [hget, hmem ("power-input", "Energy") (by decide), h4]
    rfl
  · rw [hget, hmem ("stimpaks-input", "StimPack") (by decide), h5]
    rfl
  · rw [hget, hmem ("radaway-input", "RadAway") (by decide), h6]
    rfl
  · rw [hget, hmem ("quantum-input", "NukaColaQuantum") (by decide), h7]
    rfl
  · rw [hget, hmem ("lunchbox-input", "Lunchbox") (by decide), h8]
    rfl
  · rw [hget, hmem ("mrhandy-input", "MrHandy") (by decide), h9]
    rfl
  · rw [hget, hmem ("petcarrier-input", "PetCarrier") (by decide), h10]
    rfl

/-- C4 witness inputs: every DOM element exists (with empty contents). -/
def w4in : String → Option String := fun _ => some ""

/-- C4 witness document. -/
def w4doc : JValue :=
  .obj [("vault", .obj [("storage", .obj [("resources",
    .obj [("Nuka", .num (.fin 1))])])])]

/-- C4 witness: on a concrete document, after `maxAllResources` the caps
are 999999, quantum is 999, the robot companion is 99 (and the rest of
the table holds too), with 10 applied changes. -/
theorem claim_C4_witness :
    ∃ doc', maxAllResources w4in w4doc = .ok (doc', 10) ∧
      ∀ p ∈ maxRaw, getResource doc' p.1 = some (.num (.fin p.2)) :=
  claim_C4 w4in w4doc [("Nuka", .num (.fin 1))] (by rfl) (by decide)

theorem stripResources_of (X : JValue) (rfX : List (String × JValue))
    (h : getPath X ["vault", "storage", "resources"] = some (.obj rfX)) :
    stripResources X = putResources X (some (.obj (eraseKeys rfX tenKeys))) := by
  rw [stripResources, h]

/-- C10: `applyResourceChanges` mutates at most the ten known resource
entries of `vault.storage.resources`: every run that returns leaves the
document unchanged outside those entries — stripping the ten keys from
both documents yields equal trees, and in particular the shelter
metadata and the resident list are untouched. -/
theorem claim_C10 (inputs : String → Option String) (doc doc' : JValue) (n : Nat)
    (h : applyResourceChanges inputs doc = .ok (doc', n)) :
    stripResources doc' = stripResources doc ∧
    getPath doc' ["vault", "VaultName"] = getPath doc ["vault", "VaultName"] ∧
    getPath doc' ["vault", "VaultMode"] = getPath doc ["vault", "VaultMode"] ∧
    getPath doc' ["vault", "VaultTheme"] = getPath doc ["vault", "VaultTheme"] ∧
    getPath doc' ["dwellers"] = getPath doc ["dwellers"] := by
  by_cases hguard : (truthy doc && otruthy (getField doc "vault") &&
      otruthy (getPath doc ["vault", "storage"])) = true
  · cases hres : getPath doc ["vault", "storage", "resources"] with
    | none =>
      simp only [applyResourceChanges, hguard, Bool.not_true, Bool.false_eq_true,
        if_false, hres, resourceLoop_throwing inputs resourceInputMap none (Or.inl rfl)] at h
      by_cases hc : countValid inputs resourceInputMap = 0
      · rw [if_pos hc] at h
        have hd : putResources doc none = doc' := congrArg Prod.fst (Except.ok.inj h)
        simp only [putResources] at hd
        subst hd
        exact ⟨rfl, rfl, rfl, rfl, rfl⟩
      · rw [if_neg hc] at h
        exact absurd h (by simp)
    | some x =>
      obtain ⟨df, vf, sf, hdoc, hv, hs, hr⟩ := getPath3_structure _ _ _ _ _ hres
      subst hdoc
      cases x with
      | obj rf =>
        obtain ⟨rf', hrun, _, herase, _, _⟩ :=
          applyResourceChanges_obj inputs (.obj df) rf hres
        rw [hrun] at h
        have hd : putResources (.obj df) (some (.obj rf')) = doc' :=
          congrArg Prod.fst (Except.ok.inj h)
        subst hd
        refine ⟨?_, ?_, ?_, ?_, ?_⟩
        · rw [stripResources_of _ rf' (getPath_putResources df vf sf _ hv hs),
            putResources_putResources df vf sf _ _ hv hs,
            stripResources_of _ rf hres, herase]
        · rw [getPath_putResources_vault df vf sf _ hv hs _ (by decide)]
        · rw [getPath_putResources_vault df vf sf _ hv hs _ (by decide)]
        · rw [getPath_putResources_vault df vf sf _ hv hs _ (by decide)]
        · rw [getPath_single, getPath_single,
            getField_putResources_top df vf sf _ hv hs _ (by decide)]
      | null =>
        simp only [applyResourceChanges, hguard, Bool.not_true, Bool.false_eq_true,
          if_false, hres,
          resourceLoop_throwing inputs resourceInputMap (some .null) (Or.inr rfl)] at h
        by_cases hc : countValid inputs resourceInputMap = 0
        · rw [if_pos hc] at h
          have hd : putResources (.obj df) (some .null) = doc' :=
            congrArg Prod.fst (Except.ok.inj h)
          rw [putResources_id df vf sf _ hv hs hr] at hd
          subst hd
          exact ⟨rfl, rfl, rfl, rfl, rfl⟩
        · rw [if_neg hc] at h
          exact absurd h (by simp)
      | bool b =>
        simp only [applyResourceChanges, hguard, Bool.not_true, Bool.false_eq_true,
          if_false, hres,
          resourceLoop_prim inputs resourceInputMap (.bool b) (by simp) (by simp)] at h
        have hd : putResources (.obj df) (some (.bool b)) = doc' :=
          congrArg Prod.fst (Except.ok.inj h)
        rw [putResources_id df vf sf _ hv hs hr] at hd
        subst hd
        exact ⟨rfl, rfl, rfl, rfl, rfl⟩
      | num m =>
        simp only [applyResourceChanges, hguard, Bool.not_true, Bool.false_eq_true,
          if_false, hres,
          resourceLoop_prim inputs resourceInputMap (.num m) (by simp) (by simp)] at h
        have hd : putResources (.obj df) (some (.num m)) = doc' :=
          congrArg Prod.fst (Except.ok.inj h)
        rw [putResources_id df vf sf _ hv hs hr] at hd
        subst hd
        exact ⟨rfl, rfl, rfl, rfl, rfl⟩
      | str s2 =>
        simp only [applyResourceChanges, hguard, Bool.not_true, Bool.false_eq_true,
          if_false, hres,
          resourceLoop_prim inputs resourceInputMap (.str s2) (by simp) (by simp)] at h
        have hd : putResources (.obj df) (some (.str s2)) = doc' :=
          congrArg Prod.fst (Except.ok.inj h)
        rw [putResources_id df vf sf _ hv hs hr] at hd
        subst hd
        exact ⟨rfl, rfl, rfl, rfl, rfl⟩
      | arr es =>
        simp only [applyResourceChanges, hguard, Bool.not_true, Bool.false_eq_true,
          if_false, hres,
          resourceLoop_prim inputs resourceInputMap (.arr es) (by simp) (by simp)] at h
        have hd : putResources (.obj df) (some (.arr es)) = doc' :=
          congrArg Prod.fst (Except.ok.inj h)
        rw [putResources_id df vf sf _ hv hs hr] at hd
        subst hd
        exact ⟨rfl, rfl, rfl, rfl, rfl⟩
  · have hg2 : (truthy doc && otruthy (getField doc "vault") &&
        otruthy (getPath doc ["vault", "storage"])) = false := by
      cases hb : (truthy doc && otruthy (getField doc "vault") &&
          otruthy (getPath doc ["vault", "storage"])) with
      | false => rfl
      | true => exact absurd hb hguard
    rw [applyResourceChanges, hg2] at h
    simp only [Bool.not_false, if_pos, Except.ok.injEq, Prod.mk.injEq] at h
    obtain ⟨hd, -⟩ := h
    subst hd
    exact ⟨rfl, rfl, rfl, rfl, rfl⟩

/-- C10 witness document. -/
def w10doc : JValue :=
  .obj [("vault", .obj [("VaultName", .str "V"), ("storage",
    .obj [("resources", .obj [("Nuka", .num (.fin 100)), ("Gems", .num (.fin 3))])])]),
    ("dwellers", .arr [])]

/-- C10 witness result document: only `Nuka` changed. -/
def w10res : JValue :=
  .obj [("vault", .obj [("VaultName", .str "V"), ("storage",
    .obj [("resources", .obj [("Nuka", .num (.fin (mkRat 250 1))), ("Gems", .num (.fin 3))])])]),
    ("dwellers", .arr [])]

/-- C10 witness inputs: edit caps to 250. -/
def w10in : String → Option String := fun id =>
  if id = "caps-input" then some "250" else none

/-- C10 witness: a concrete run showing the frame property. -/
theorem claim_C10_witness :
    stripResources w10res = stripResources w10doc ∧
    getPath w10res ["vault", "VaultName"] = getPath w10doc ["vault", "VaultName"] ∧
    getPath w10res ["vault", "VaultMode"] = getPath w10doc ["vault", "VaultMode"] ∧
    getPath w10res ["vault", "VaultTheme"] = getPath w10doc ["vault", "VaultTheme"] ∧
    getPath w10res ["dwellers"] = getPath w10doc ["dwellers"] :=
  claim_C10 w10in w10doc w10res 1 (by rfl)

/-! ## Shelter metadata editor: `applyVaultChanges` (renderer.js 354-391) -/

/-- The name condition (renderer.js 363-367): element present and value
non-empty after trimming; the trimmed value is written. -/
def nameEdit (inputs : String → Option String) : Option String :=
  match inputs "vault-name-input" with
  | some s => if trimChars s.data = [] then none else some (jsTrim s)
  | none => none

/-- The mode condition (renderer.js 369-373): element present and value
truthy (non-empty, no trimming); the raw value is written — there is NO
membership check against {Normal, Survival}. -/
def modeEdit (inputs : String → Option String) : Option String :=
  match inputs "vault-mode-input" with
  | some s => if s = "" then none else some s
  | none => none

/-- The theme condition (renderer.js 375-382): element present, value
non-empty after trimming, `parseInt` of it not NaN and ≥ 0. -/
def themeEdit (inputs : String → Option String) : Option Int :=
  match inputs "vault-theme-input" with
  | some s =>
    if trimChars s.data = [] then none
    else
      match parseIntJS s with
      | some t => if 0 ≤ t then some t else none
      | none => none
  | none => none

/-- A property write on the (truthy) vault value: updates an object,
is silently ignored on a primitive or array. -/
def vaultWrite (v : JValue) (key : String) (x : JValue) : JValue :=
  match v with
  | .obj f => .obj (setField f key x)
  | other => other

/-- Rebuild the document with the aliased vault value. -/
def putVault (doc : JValue) (v : JValue) : JValue :=
  match doc with
  | .obj df => .obj (setField df "vault" v)
  | other => other

/-- `applyVaultChanges` (renderer.js 354-391): guard, then the three
conditional writes in source order (name, mode, theme), counting each
applied field. -/
def applyVaultChanges (inputs : String → Option String) (doc : JValue) : JValue × Nat :=
  if !(truthy doc && otruthy (getField doc "vault")) then (doc, 0)
  else
    let v0 := (getField doc "vault").getD .null
    let p1 : JValue × Nat :=
      match nameEdit inputs with
      | some s => (vaultWrite v0 "VaultName" (.str s), 1)
      | none => (v0, 0)
    let p2 : JValue × Nat :=
      match modeEdit inputs with
      | some s => (vaultWrite p1.1 "VaultMode" (.str s), p1.2 + 1)
      | none => p1
    let p3 : JValue × Nat :=
      match themeEdit inputs with
      | some t => (vaultWrite p2.1 "VaultTheme" (.num (.fin t)), p2.2 + 1)
      | none => p2
    (putVault doc p3.1, p3.2)

/-- The vault object after the three conditional writes. -/
def expectedVault (vf : List (String × JValue)) (inputs : String → Option String) :
    List (String × JValue) :=
  let f1 := match nameEdit inputs with
    | some s => setField vf "VaultName" (.str s)
    | none => vf
  let f2 := match modeEdit inputs with
    | some s => setField f1 "VaultMode" (.str s)
    | none => f1
  match themeEdit inputs with
  | some t => setField f2 "VaultTheme" (.num (.fin t))
  | none => f2

/-- 0/1 count of an optional edit. -/
def countOpt (o : Option α) : Nat := if o.isSome then 1 else 0

theorem lk_name_mode (f : List (String × JValue)) (x : JValue) :
    lookupField (setField f "VaultMode" x) "VaultName" = lookupField f "VaultName" :=
  lookupField_setField_ne f _ _ x (by decide)

theorem lk_name_theme (f : List (String × JValue)) (x : JValue) :
    lookupField (setField f "VaultTheme" x) "VaultName" = lookupField f "VaultName" :=
  lookupField_setField_ne f _ _ x (by decide)

theorem lk_mode_name (f : List (String × JValue)) (x : JValue) :
    lookupField (setField f "VaultName" x) "VaultMode" = lookupField f "VaultMode" :=
  lookupField_setField_ne f _ _ x (by decide)

theorem lk_mode_theme (f : List (String × JValue)) (x : JValue) :
    lookupField (setField f "VaultTheme" x) "VaultMode" = lookupField f "VaultMode" :=
  lookupField_setField_ne f _ _ x (by decide)

theorem lk_theme_name (f : List (String × JValue)) (x : JValue) :
    lookupField (setField f "VaultName" x) "VaultTheme" = lookupField f "VaultTheme" :=
  lookupField_setField_ne f _ _ x (by decide)

theorem lk_theme_mode (f : List (String × JValue)) (x : JValue) :
    lookupField (setField f "VaultMode" x) "VaultTheme" = lookupField f "VaultTheme" :=
  lookupField_setField_ne f _ _ x (by decide)

theorem applyVaultChanges_obj (inputs : String → Option String)
    (df vf : List (String × JValue)) (hv : lookupField df "vault" = some (.obj vf)) :
    applyVaultChanges inputs (.obj df) =
      (.obj (setField df "vault" (.obj (expectedVault vf inputs))),
        countOpt (nameEdit inputs) + countOpt (modeEdit inputs) +
          countOpt (themeEdit inputs)) := by
  have hguard : (truthy (.obj df) && otruthy (getField (.obj df) "vault")) = true := by
    simp [truthy, getField, hv, otruthy]
  cases hn : nameEdit inputs <;> cases hm : modeEdit inputs <;>
    cases ht : themeEdit inputs <;>
      simp [applyVaultChanges, hguard, getField, hv, hn, hm, ht, vaultWrite, putVault,
        expectedVault, countOpt, truthy, otruthy]

theorem expectedVault_name (vf : List (String × JValue)) (inputs : String → Option String) :
    lookupField (expectedVault vf inputs) "VaultName" =
      (match nameEdit inputs with
       | some s => some (.str s)
       | none => lookupField vf "VaultName") := by
  cases hn : nameEdit inputs <;> cases hm : modeEdit inputs <;>
    cases ht : themeEdit inputs <;>
      simp [expectedVault, hn, hm, ht, lookupField_setField_self, lk_name_mode,
        lk_name_theme]

theorem expectedVault_mode (vf : List (String × JValue)) (inputs : String → Option String) :
    lookupField (expectedVault vf inputs) "VaultMode" =
      (match modeEdit inputs with
       | some s => some (.str s)
       | none => lookupField vf "VaultMode") := by
  cases hn : nameEdit inputs <;> cases hm : modeEdit inputs <;>
    cases ht : themeEdit inputs <;>
      simp [expectedVault, hn, hm, ht, lookupField_setField_self, lk_mode_name,
        lk_mode_theme]

theorem expectedVault_theme (vf : List (String × JValue)) (inputs : String → Option String) :
    lookupField (expectedVault vf inputs) "VaultTheme" =
      (match themeEdit inputs with
       | some t => some (.num (.fin t))
       | none => lookupField vf "VaultTheme") := by
  cases hn : nameEdit inputs <;> cases hm : modeEdit inputs <;>
    cases ht : themeEdit inputs <;>
      simp [expectedVault, hn, hm, ht, lookupField_setField_self, lk_theme_name,
        lk_theme_mode]

theorem expectedVault_other (vf : List (String × JValue)) (inputs : String → Option String)
    (k : String) (h1 : k ≠ "VaultName") (h2 : k ≠ "VaultMode") (h3 : k ≠ "VaultTheme") :
    lookupField (expectedVault vf inputs) k = lookupField vf k := by
  cases hn : nameEdit inputs <;> cases hm : modeEdit inputs <;>
    cases ht : themeEdit inputs <;>
      simp [expectedVault, hn, hm, ht,
        lookupField_setField_ne _ _ _ _ (Ne.symm h1),
        lookupField_setField_ne _ _ _ _ (Ne.symm h2),
        lookupField_setField_ne _ _ _ _ (Ne.symm h3)]

/-- C5 (amended): on a document whose vault is an object,
`applyVaultChanges` writes the name only if non-empty after trimming
(writing the trimmed value), writes the mode only if it is a non-empty
string — performing NO validation against {Normal, Survival} — and
writes the theme only if integer-parseable and ≥ 0; the returned count
is the number of fields written, and no other vault field changes.  The
claim's mode restriction to {Normal, Survival} is refuted by the
counterexample below. -/
theorem claim_C5 (inputs : String → Option String) (df vf : List (String × JValue))
    (hv : lookupField df "vault" = some (.obj vf)) :
    ∃ vf', applyVaultChanges inputs (.obj df) =
        (.obj (setField df "vault" (.obj vf')),
          countOpt (nameEdit inputs) + countOpt (modeEdit inputs) +
            countOpt (themeEdit inputs)) ∧
      lookupField vf' "VaultName" =
        (match nameEdit inputs with
         | some s => some (.str s)
         | none => lookupField vf "VaultName") ∧
      lookupField vf' "VaultMode" =
        (match modeEdit inputs with
         | some s => some (.str s)
         | none => lookupField vf "VaultMode") ∧
      lookupField vf' "VaultTheme" =
        (match themeEdit inputs with
         | some t => some (.num (.fin t))
         | none => lookupField vf "VaultTheme") ∧
      ∀ k, k ≠ "VaultName" → k ≠ "VaultMode" → k ≠ "VaultTheme" →
        lookupField vf' k = lookupField vf k :=
  ⟨expectedVault vf inputs, applyVaultChanges_obj inputs df vf hv,
    expectedVault_name vf inputs, expectedVault_mode vf inputs,
    expectedVault_theme vf inputs, expectedVault_other vf inputs⟩

/-- C5 witness inputs: name `" Home "`, mode `"Survival"`, theme `"3"`. -/
def w5in : String → Option String := fun id =>
  if id = "vault-name-input" then some " Home "
  else if id = "vault-mode-input" then some "Survival"
  else if id = "vault-theme-input" then some "3"
  else none

/-- C5 witness: a concrete run applying all three shelter edits. -/
theorem claim_C5_witness :
    ∃ vf', applyVaultChanges w5in (.obj [("vault", .obj [("VaultName", .str "Old")])]) =
        (.obj (setField [("vault", .obj [("VaultName", .str "Old")])] "vault" (.obj vf')),
          countOpt (nameEdit w5in) + countOpt (modeEdit w5in) + countOpt (themeEdit w5in)) ∧
      lookupField vf' "VaultName" =
        (match nameEdit w5in with
         | some s => some (.str s)
         | none => lookupField [("VaultName", .str "Old")] "VaultName") ∧
      lookupField vf' "VaultMode" =
        (match modeEdit w5in with
         | some s => some (.str s)
         | none => lookupField [("VaultName", .str "Old")] "VaultMode") ∧
      lookupField vf' "VaultTheme" =
        (match themeEdit w5in with
         | some t => some (.num (.fin t))
         | none => lookupField [("VaultName", .str "Old")] "VaultTheme") ∧
      ∀ k, k ≠ "VaultName" → k ≠ "VaultMode" → k ≠ "VaultTheme" →
        lookupField vf' k = lookupField [("VaultName", .str "Old")] k :=
  claim_C5 w5in [("vault", .obj [("VaultName", .str "Old")])]
    [("VaultName", .str "Old")] (by rfl)

/-- C5 counterexample inputs: the mode box holds `"Hardcore"`. -/
def c5in : String → Option String := fun id =>
  if id = "vault-mode-input" then some "Hardcore" else none

/-- C5 counterexample: the claim says a mode outside {Normal, Survival}
is not applied; the code writes `VaultMode = "Hardcore"` and counts it. -/
theorem claim_C5_cex :
    applyVaultChanges c5in (.obj [("vault", .obj [])]) =
      (.obj [("vault", .obj [("VaultMode", .str "Hardcore")])], 1) := by rfl

/-! ## Resident batch editors (renderer.js 670-731 and 771-816) -/

/-- Left-to-right sequence of property writes on one object. -/
def setFields (f : List (String × JValue)) : List (String × JValue) → List (String × JValue)
  | [] => f
  | (k, v) :: rest => setFields (setField f k v) rest

/-- The `if (dweller.X) { dweller.X.k = v; ... }` pattern of
`maxAllDwellers`: writes only when the container is present and truthy;
writes on a truthy primitive container are silently ignored. -/
def condWrite (f : List (String × JValue)) (container : String)
    (kvs : List (String × JValue)) : List (String × JValue) :=
  match lookupField f container with
  | some c =>
    if truthy c then
      match c with
      | .obj cf => setField f container (.obj (setFields cf kvs))
      | _ => f
    else f
  | none => f

/-- The seven SPECIAL stat keys (the loop indices 1..7, stringified by
JavaScript property access). -/
def statKeys : List String := ["1", "2", "3", "4", "5", "6", "7"]

/-- The SPECIAL loop of `maxAllDwellers`: `stats[i] = 10` for i = 1..7. -/
def writeStats10 (stf : List (String × JValue)) : List (String × JValue) :=
  setFields stf (statKeys.map (fun k => (k, .num (.fin 10))))

/-- The per-resident body of `maxAllDwellers` (renderer.js 780-807):
level/experience, happiness and health are forced ONLY when their
containers are present and truthy; the SPECIAL container is created when
absent or falsy and all seven stats are set to 10.  Runs on which the
JavaScript original throws (a primitive or null resident, or a truthy
non-object `serializeableSpecialStats`) are `Except.error`. -/
def dwellerMax (d : JValue) : Except Unit JValue :=
  match d with
  | .obj f =>
    let f1 := condWrite f "experience"
      [("currentLevel", .num (.fin 50)), ("experienceValue", .num (.fin 2916000))]
    let f2 := condWrite f1 "happiness" [("happinessValue", .num (.fin 100))]
    let f3 := condWrite f2 "health" [("healthValue", .num (.fin 100))]
    let f4 := match lookupField f3 "serializeableSpecialStats" with
      | some c =>
        if truthy c then f3
        else setField f3 "serializeableSpecialStats" (.obj [("stats", .obj [])])
      | none => setField f3 "serializeableSpecialStats" (.obj [("stats", .obj [])])
    match lookupField f4 "serializeableSpecialStats" with
    | some (.obj sf) =>
      let sf1 := match lookupField sf "stats" with
        | some st => if truthy st then sf else setField sf "stats" (.obj [])
        | none => setField sf "stats" (.obj [])
      match lookupField sf1 "stats" with
      | some (.obj stf) =>
        .ok (.obj (setField f4 "serializeableSpecialStats"
          (.obj (setField sf1 "stats" (.obj (writeStats10 stf))))))
      | some st => if truthy st then .ok (.obj f4) else .error ()
      | none => .error ()
    | some _ => .error ()
    | none => .error ()
  | _ => .error ()

/-- `dwellers.forEach` over the resident list, stopping at the first
thrown TypeError. -/
def dwellersMapM : List JValue → Except Unit (List JValue)
  | [] => .ok []
  | d :: rest =>
    match dwellerMax d with
    | .error e => .error e
    | .ok d' =>
      match dwellersMapM rest with
      | .error e => .error e
      | .ok rest2 => .ok (d' :: rest2)

/-- Rebuild the document with the aliased resident list. -/
def putDwellers (doc : JValue) (dv : JValue) : JValue :=
  match doc with
  | .obj df =>
    match lookupField df "dwellers" with
    | some (.obj dwf) => .obj (setField df "dwellers" (.obj (setField dwf "dwellers" dv)))
    | _ => doc
  | _ => doc

/-- `maxAllDwellers` (renderer.js 771-816): guard on
`dwellers.dwellers`, then the per-resident loop; the count is the number
of residents iterated. -/
def maxAllDwellers (doc : JValue) : Except Unit (JValue × Nat) :=
  if !(truthy doc && otruthy (getField doc "dwellers") &&
       otruthy (getPath doc ["dwellers", "dwellers"])) then .ok (doc, 0)
  else
    match getPath doc ["dwellers", "dwellers"] with
    | some (.arr es) =>
      match dwellersMapM es with
      | .error e => .error e
      | .ok es2 => .ok (putDwellers doc (.arr es2), es.length)
    | some _ => .error ()
    | none => .ok (doc, 0)

/-- Resident records on which `maxAllDwellers` follows its intended
paths: the record is an object; its `experience`, `happiness` and
`health` fields, when present and truthy, are objects; its
`serializeableSpecialStats`, when present and truthy, is an object whose
`stats`, when present and truthy, is an object. -/
def fieldObjOk (f : List (String × JValue)) (k : String) : Bool :=
  match lookupField f k with
  | some c => !truthy c || (match c with | .obj _ => true | _ => false)
  | none => true

/-- Well-shapedness of one resident record. -/
def dwellerOk (d : JValue) : Bool :=
  match d with
  | .obj f =>
    fieldObjOk f "experience" && fieldObjOk f "happiness" && fieldObjOk f "health" &&
    (match lookupField f "serializeableSpecialStats" with
     | some c =>
       if truthy c then
         match c with
         | .obj sf => fieldObjOk sf "stats"
         | _ => false
       else true
     | none => true)
  | _ => false

theorem lookupField_setFields_out (kvs : List (String × JValue))
    (f : List (String × JValue)) (k : String) (hk : k ∉ kvs.map Prod.fst) :
    lookupField (setFields f kvs) k = lookupField f k := by
  induction kvs generalizing f with
  | nil => rfl
  | cons p rest ih =>
    obtain ⟨k1, v1⟩ := p
    simp only [List.map_cons, List.mem_cons, not_or] at hk
    rw [setFields, ih _ hk.2, lookupField_setField_ne _ _ _ _ (fun he => hk.1 he.symm)]

theorem lookupField_setFields_mem (kvs : List (String × JValue))
    (f : List (String × JValue)) (hnd : (kvs.map Prod.fst).Nodup)
    (p : String × JValue) (hp : p ∈ kvs) :
    lookupField (setFields f kvs) p.1 = some p.2 := by
  induction kvs generalizing f with
  | nil => cases hp
  | cons q rest ih =>
    obtain ⟨k1, v1⟩ := q
    simp only [List.map_cons, List.nodup_cons] at hnd
    rcases List.mem_cons.mp hp with rfl | hp2
    · rw [setFields, lookupField_setFields_out _ _ _ hnd.1, lookupField_setField_self]
    · rw [setFields]
      exact ih (setField f k1 v1) hnd.2 hp2

theorem condWrite_other (f : List (String × JValue)) (container : String)
    (kvs : List (String × JValue)) (k : String) (hk : container ≠ k) :
    lookupField (condWrite f container kvs) k = lookupField f k := by
  rw [condWrite]
  cases hc : lookupField f container with
  | none => rfl
  | some c =>
    by_cases ht : truthy c = true
    · cases c <;> simp [ht, lookupField_setField_ne _ _ _ _ hk]
    · simp [Bool.not_eq_true] at ht
      simp [ht]

theorem condWrite_obj (f : List (String × JValue)) (container : String)
    (kvs : List (String × JValue)) (cf : List (String × JValue))
    (h : lookupField f container = some (.obj cf)) :
    condWrite f container kvs = setField f container (.obj (setFields cf kvs)) := by
  rw [condWrite, h]
  rfl

theorem condWrite_skip (f : List (String × JValue)) (container : String)
    (kvs : List (String × JValue)) (h : otruthy (lookupField f container) = false) :
    condWrite f container kvs = f := by
  rw [condWrite]
  cases hc : lookupField f container with
  | none => rfl
  | some c =>
    rw [hc] at h
    simp only [otruthy] at h
    simp [h]

/-- What the amended C6 guarantees about one processed resident. -/
def dwellerMaxed (d d' : JValue) : Prop :=
  (∀ j ∈ statKeys,
    getKeys d' ["serializeableSpecialStats", "stats", j] = some (.num (.fin 10))) ∧
  (otruthy (getField d "experience") = true →
    getKeys d' ["experience", "currentLevel"] = some (.num (.fin 50)) ∧
    getKeys d' ["experience", "experienceValue"] = some (.num (.fin 2916000))) ∧
  (otruthy (getField d "happiness") = true →
    getKeys d' ["happiness", "happinessValue"] = some (.num (.fin 100))) ∧
  (otruthy (getField d "health") = true →
    getKeys d' ["health", "healthValue"] = some (.num (.fin 100)))

theorem lookup_writeStats10 (stf : List (String × JValue)) (j : String)
    (hj : j ∈ statKeys) :
    lookupField (writeStats10 stf) j = some (.num (.fin 10)) := by
  have hp : (j, (JValue.num (.fin 10))) ∈ statKeys.map (fun k => (k, JValue.num (.fin 10))) :=
    List.mem_map_of_mem _ hj
  have := lookupField_setFields_mem (statKeys.map (fun k => (k, JValue.num (.fin 10)))) stf
    (by decide) _ hp
  simpa [writeStats10] using this

theorem dwellerMax_spec (d : JValue) (h : dwellerOk d = true) :
    ∃ d', dwellerMax d = .ok d' ∧ dwellerMaxed d d' := by
  cases d with
  | obj f => ?_
  | null => simp [dwellerOk] at h
  | bool b => simp [dwellerOk] at h
  | num n => simp [dwellerOk] at h
  | str s => simp [dwellerOk] at h
  | arr es => simp [dwellerOk] at h
  simp only [dwellerOk, Bool.and_eq_true] at h
  obtain ⟨⟨⟨hexp, hhap⟩, hhea⟩, hsss⟩ := h
  -- the three conditional container writes
  set f1 := condWrite f "experience"
    [("currentLevel", .num (.fin 50)), ("experienceValue", .num (.fin 2916000))] with hf1
  set f2 := condWrite f1 "happiness" [("happinessValue", .num (.fin 100))] with hf2
  set f3 := condWrite f2 "health" [("healthValue", .num (.fin 100))] with hf3
  have l31 : lookupField f3 "serializeableSpecialStats" =
      lookupField f "serializeableSpecialStats" := by
    rw [hf3, condWrite_other _ _ _ _ (by decide), hf2,
      condWrite_other _ _ _ _ (by decide), hf1, condWrite_other _ _ _ _ (by decide)]
  have lexp3 : lookupField f3 "experience" = lookupField f1 "experience" := by
    rw [hf3, condWrite_other _ _ _ _ (by decide), hf2, condWrite_other _ _ _ _ (by decide)]
  have lhap3 : lookupField f3 "happiness" = lookupField f2 "happiness" := by
    rw [hf3, condWrite_other _ _ _ _ (by decide)]
  have lhap1 : lookupField f1 "happiness" = lookupField f "happiness" := by
    rw [hf1, condWrite_other _ _ _ _ (by decide)]
  have lhea2 : lookupField f2 "health" = lookupField f1 "health" := by
    rw [hf2, condWrite_other _ _ _ _ (by decide)]
  have lhea1 : lookupField f1 "health" = lookupField f "health" := by
    rw [hf1, condWrite_other _ _ _ _ (by decide)]
  -- the SPECIAL phase: in every well-shaped case the result has the shape
  -- setField f4 sss (.obj (setField SF "stats" (.obj (writeStats10 STF))))
  have main : ∃ f4 SF STF, dwellerMax (.obj f) =
      .ok (.obj (setField f4 "serializeableSpecialStats"
        (.obj (setField SF "stats" (.obj (writeStats10 STF)))))) ∧
      (∀ k, k ≠ "serializeableSpecialStats" → lookupField f4 k = lookupField f3 k) := by
    cases hc : lookupField f "serializeableSpecialStats" with
    | none =>
      have l31n : lookupField f3 "serializeableSpecialStats" = none := by rw [l31, hc]
      refine ⟨setField f3 "serializeableSpecialStats" (.obj [("stats", .obj [])]),
        [("stats", .obj [])], [], ?_, ?_⟩
      · simp only [dwellerMax, ← hf1, ← hf2, ← hf3, l31n, lookupField_setField_self]
        rfl
      · intro k hk
        exact lookupField_setField_ne _ _ _ _ (fun he => hk he.symm)
    | some c =>
      simp only [hc] at hsss
      have l31c : lookupField f3 "serializeableSpecialStats" = some c := by rw [l31, hc]
      by_cases ht : truthy c = true
      · simp only [ht, if_true] at hsss
        cases c with
        | obj sfO => ?_
        | null => simp [truthy] at ht
        | bool b => simp at hsss
        | num n => simp at hsss
        | str s => simp at hsss
        | arr es => simp at hsss
        -- sss is a truthy object; f4 = f3
        cases hst : lookupField sfO "stats" with
        | none =>
          refine ⟨f3, setField sfO "stats" (.obj []), [], ?_, fun _ _ => rfl⟩
          simp only [dwellerMax, ← hf1, ← hf2, ← hf3, l31c, truthy_obj, if_true, hst,
            lookupField_setField_self]
        | some st =>
          simp only [fieldObjOk, hst] at hsss
          by_cases hts : truthy st = true
          · have hobj : ∃ stf, st = .obj stf := by
              cases st with
              | obj stf => exact ⟨stf, rfl⟩
              | null => simp [truthy] at hts
              | bool b => simp [hts] at hsss
              | num n => simp [hts] at hsss
              | str s => simp [hts] at hsss
              | arr es => simp [hts] at hsss
            obtain ⟨stf, rfl⟩ := hobj
            refine ⟨f3, sfO, stf, ?_, fun _ _ => rfl⟩
            simp only [dwellerMax, ← hf1, ← hf2, ← hf3, l31c, truthy_obj, if_true, hst,
              hts]
          · simp only [Bool.not_eq_true] at hts
            refine ⟨f3, setField sfO "stats" (.obj []), [], ?_, fun _ _ => rfl⟩
            simp only [dwellerMax, ← hf1, ← hf2, ← hf3, l31c, truthy_obj, if_true, hst,
              hts, Bool.false_eq_true, if_false, lookupField_setField_self]
      · -- sss present but falsy: replaced wholesale
        simp only [Bool.not_eq_true] at ht
        refine ⟨setField f3 "serializeableSpecialStats" (.obj [("stats", .obj [])]),
          [("stats", .obj [])], [], ?_, ?_⟩
        · simp only [dwellerMax, ← hf1, ← hf2, ← hf3, l31c, ht, Bool.false_eq_true,
            if_false, lookupField_setField_self]
          rfl
        · intro k hk
          exact lookupField_setField_ne _ _ _ _ (fun he => hk he.symm)
  obtain ⟨f4, SF, STF, hrun, hf4⟩ := main
  refine ⟨_, hrun, ?_, ?_, ?_, ?_⟩
  · intro j hj
    simp only [getKeys, lookupField_setField_self]
    rw [lookup_writeStats10 _ _ hj]
  · intro he
    simp only [getField, otruthy] at he
    cases hce : lookupField f "experience" with
    | none => rw [hce] at he; simp at he
    | some c =>
      rw [hce] at he
      have hobj : ∃ ef, c = .obj ef := by
        rw [fieldObjOk, hce] at hexp
        cases c with
        | obj ef => exact ⟨ef, rfl⟩
        | null => simp [truthy] at he
        | bool b => simp at hexp; simp [hexp] at he
        | num n => simp at hexp; simp [hexp] at he
        | str s2 => simp at hexp; simp [hexp] at he
        | arr es => simp at hexp; simp [hexp] at he
      obtain ⟨ef, rfl⟩ := hobj
      have hl1 : lookupField f1 "experience" =
          some (.obj (setFields ef [("currentLevel", .num (.fin 50)),
            ("experienceValue", .num (.fin 2916000))])) := by
        rw [hf1, condWrite_obj _ _ _ _ hce, lookupField_setField_self]
      constructor
      · simp only [getKeys, lookupField_setField_ne _ _ _ _
          (show ("serializeableSpecialStats" : String) ≠ "experience" from by decide),
          hf4 "experience" (by decide), lexp3, hl1]
        rw [show lookupField (setFields ef [("currentLevel", .num (.fin 50)),
            ("experienceValue", .num (.fin 2916000))]) "currentLevel" =
          some (.num (.fin 50)) from lookupField_setFields_mem
            [("currentLevel", .num (.fin 50)), ("experienceValue", .num (.fin 2916000))]
            ef (by decide) ("currentLevel", .num (.fin 50)) (by simp)]
      · simp only [getKeys, lookupField_setField_ne _ _ _ _
          (show ("serializeableSpecialStats" : String) ≠ "experience" from by decide),
          hf4 "experience" (by decide), lexp3, hl1]
        rw [show lookupField (setFields ef [("currentLevel", .num (.fin 50)),
            ("experienceValue", .num (.fin 2916000))]) "experienceValue" =
          some (.num (.fin 2916000)) from lookupField_setFields_mem
            [("currentLevel", .num (.fin 50)), ("experienceValue", .num (.fin 2916000))]
            ef (by decide) ("experienceValue", .num (.fin 2916000)) (by simp)]
  · intro he
    simp only [getField, otruthy] at he
    cases hce : lookupField f "happiness" with
    | none => rw [hce] at he; simp at he
    | some c =>
      rw [hce] at he
      have hobj : ∃ hf, c = .obj hf := by
        rw [fieldObjOk, hce] at hhap
        cases c with
        | obj hf => exact ⟨hf, rfl⟩
        | null => simp [truthy] at he
        | bool b => simp at hhap; simp [hhap] at he
        | num n => simp at hhap; simp [hhap] at he
        | str s2 => simp at hhap; simp [hhap] at he
        | arr es => simp at hhap; simp [hhap] at he
      obtain ⟨hf, rfl⟩ := hobj
      have hl2 : lookupField f2 "happiness" =
          some (.obj (setFields hf [("happinessValue", .num (.fin 100))])) := by
        rw [hf2, condWrite_obj _ _ _ _ (lhap1 ▸ hce), lookupField_setField_self]
      simp only [getKeys, lookupField_setField_ne _ _ _ _
        (show ("serializeableSpecialStats" : String) ≠ "happiness" from by decide),
        hf4 "happiness" (by decide), lhap3, hl2]
      rw [show lookupField (setFields hf [("happinessValue", .num (.fin 100))])
          "happinessValue" = some (.num (.fin 100)) from
        lookupField_setFields_mem [("happinessValue", .num (.fin 100))] hf (by decide)
          ("happinessValue", .num (.fin 100)) (by simp)]
  · intro he
    simp only [getField, otruthy] at he
    cases hce : lookupField f "health" with
    | none => rw [hce] at he; simp at he
    | some c =>
      rw [hce] at he
      have hobj : ∃ hf, c = .obj hf := by
        rw [fieldObjOk, hce] at hhea
        cases c with
        | obj hf => exact ⟨hf, rfl⟩
        | null => simp [truthy] at he
        | bool b => simp at hhea; simp [hhea] at he
        | num n => simp at hhea; simp [hhea] at he
        | str s2 => simp at hhea; simp [hhea] at he
        | arr es => simp at hhea; simp [hhea] at he
      obtain ⟨hf, rfl⟩ := hobj
      have hl3 : lookupField f3 "health" =
          some (.obj (setFields hf [("healthValue", .num (.fin 100))])) := by
        rw [hf3, condWrite_obj _ _ _ _ (lhea2 ▸ lhea1 ▸ hce), lookupField_setField_self]
      simp only [getKeys, lookupField_setField_ne _ _ _ _
        (show ("serializeableSpecialStats" : String) ≠ "health" from by decide),
        hf4 "health" (by decide), hl3]
      rw [show lookupField (setFields hf [("healthValue", .num (.fin 100))])
          "healthValue" = some (.num (.fin 100)) from
        lookupField_setFields_mem [("healthValue", .num (.fin 100))] hf (by decide)
          ("healthValue", .num (.fin 100)) (by simp)]

theorem dwellersMapM_spec (es : List JValue) (hok : ∀ d ∈ es, dwellerOk d = true) :
    ∃ es2, dwellersMapM es = .ok es2 ∧ List.Forall₂ dwellerMaxed es es2 := by
  induction es with
  | nil => exact ⟨[], rfl, List.Forall₂.nil⟩
  | cons d rest ih =>
    obtain ⟨d', hd, hmx⟩ := dwellerMax_spec d (hok d (List.mem_cons_self _ _))
    obtain ⟨es2, hrest, hf⟩ := ih (fun x hx => hok x (List.mem_cons_of_mem _ hx))
    exact ⟨d' :: es2, by rw [dwellersMapM, hd, hrest], List.Forall₂.cons hmx hf⟩

theorem getPath2_structure (doc : JValue) (a b : String) (x : JValue)
    (h : getPath doc [a, b] = some x) :
    ∃ df bf, doc = .obj df ∧ lookupField df a = some (.obj bf) ∧
      lookupField bf b = some x := by
  rw [getPath_cons] at h
  rcases Option.bind_eq_some.mp h with ⟨B, hB, hx⟩
  rw [getPath_single] at hx
  obtain ⟨df, rfl, h1⟩ := getField_eq_some _ _ _ hB
  obtain ⟨bf, rfl, h2⟩ := getField_eq_some _ _ _ hx
  exact ⟨df, bf, rfl, h1, h2⟩

/-- C6 (amended): on a document whose resident list is an array of
well-shaped resident records, `maxAllDwellers` processes every resident
and returns their number as its count; on each resident all seven
SPECIAL stats are forced to 10 (creating the stats container when absent
or falsy), while level = 50, experience = 2916000, happiness = 100 and
health = 100 are forced ONLY when the corresponding container object is
already present — not unconditionally, see the counterexample. -/
theorem claim_C6 (doc : JValue) (es : List JValue)
    (h : getPath doc ["dwellers", "dwellers"] = some (.arr es))
    (hok : ∀ d ∈ es, dwellerOk d = true) :
    ∃ es2, maxAllDwellers doc = .ok (putDwellers doc (.arr es2), es.length) ∧
      List.Forall₂ dwellerMaxed es es2 := by
  obtain ⟨df, dwf, hdoc, h1, h2⟩ := getPath2_structure _ _ _ _ h
  subst hdoc
  have hguard : (truthy (.obj df) && otruthy (getField (.obj df) "dwellers") &&
      otruthy (getPath (.obj df) ["dwellers", "dwellers"])) = true := by
    simp [truthy, getField, h1, otruthy, h]
  obtain ⟨es2, hmap, hfa⟩ := dwellersMapM_spec es hok
  refine ⟨es2, ?_, hfa⟩
  have hng : (!(truthy (.obj df) && otruthy (getField (.obj df) "dwellers") &&
      otruthy (getPath (.obj df) ["dwellers", "dwellers"]))) = false := by
    rw [hguard]; rfl
  rw [maxAllDwellers, hng]
  simp only [Bool.false_eq_true, if_false, h, hmap]

/-- C6 witness resident: all three stat containers present. -/
def w6d : JValue :=
  .obj [("experience", .obj [("currentLevel", .num (.fin 3))]),
    ("happiness", .obj [("happinessValue", .num (.fin 20))]),
    ("health", .obj [("healthValue", .num (.fin 80))])]

/-- C6 witness document. -/
def w6doc : JValue := .obj [("dwellers", .obj [("dwellers", .arr [w6d])])]

/-- C6 witness: one well-shaped resident is maxed and counted. -/
theorem claim_C6_witness :
    ∃ es2, maxAllDwellers w6doc = .ok (putDwellers w6doc (.arr es2), 1) ∧
      List.Forall₂ dwellerMaxed [w6d] es2 :=
  claim_C6 w6doc [w6d] (by rfl) (by decide)

/-- The result of `maxAllDwellers` on the bare resident `{}`. -/
def c6dweller : JValue :=
  .obj [("serializeableSpecialStats", .obj [("stats",
    .obj [("1", .num (.fin 10)), ("2", .num (.fin 10)), ("3", .num (.fin 10)),
      ("4", .num (.fin 10)), ("5", .num (.fin 10)), ("6", .num (.fin 10)),
      ("7", .num (.fin 10))])])]

/-- C6 counterexample: on a non-empty resident list holding the record
`{}`, the claim says level is unconditionally forced to 50; the code
skips level/experience/happiness/health whenever their containers are
absent (`if (dweller.experience)`), so the processed resident has no
level at all — only the SPECIAL container was created and filled. -/
theorem claim_C6_cex :
    maxAllDwellers (.obj [("dwellers", .obj [("dwellers", .arr [.obj []])])]) =
      .ok (.obj [("dwellers", .obj [("dwellers", .arr [c6dweller])])], 1) ∧
    getKeys c6dweller ["experience", "currentLevel"] = none := ⟨rfl, rfl⟩

/-- C7.  Amended: on a document whose `dwellers.dwellers` key is absent,
or whose resident list is empty, `maxAllDwellers` returns 0, does not
throw, and leaves the document entirely unchanged; and
`applyResourceChanges` degrades to a no-op reporting zero changes when
its guarded `vault.storage` section is missing or falsy.  The claim's
general clause — that a missing expected section always degrades the
batch operation to a no-op rather than an error — is wrong: with
`vault.storage` present but its `resources` object absent, a pending
valid edit makes `applyResourceChanges` throw a TypeError. -/
theorem claim_C7 (doc : JValue)
    (h : getPath doc ["dwellers", "dwellers"] = none ∨
      getPath doc ["dwellers", "dwellers"] = some (.arr [])) :
    maxAllDwellers doc = .ok (doc, 0) ∧
    ∀ inputs, otruthy (getPath doc ["vault", "storage"]) = false →
      applyResourceChanges inputs doc = .ok (doc, 0) := by
  constructor
  · rcases h with h | h
    · rw [maxAllDwellers, h]
      simp [otruthy]
    · obtain ⟨df, dwf, hdoc, h1, h2⟩ := getPath2_structure _ _ _ _ h
      subst hdoc
      have hguard : (truthy (.obj df) && otruthy (getField (.obj df) "dwellers") &&
          otruthy (getPath (.obj df) ["dwellers", "dwellers"])) = true := by
        simp [truthy, getField, h1, otruthy, h]
      have hng : (!(truthy (.obj df) && otruthy (getField (.obj df) "dwellers") &&
          otruthy (getPath (.obj df) ["dwellers", "dwellers"]))) = false := by
        rw [hguard]; rfl
      rw [maxAllDwellers, hng]
      simp only [Bool.false_eq_true, if_false, h, dwellersMapM, List.length_nil]
      rw [show putDwellers (.obj df) (.arr []) = .obj df from by
        simp only [putDwellers, h1]
        rw [setField_self dwf _ _ h2, setField_self df _ _ h1]]
  · intro inputs hst
    have hg : (truthy doc && otruthy (getField doc "vault") &&
        otruthy (getPath doc ["vault", "storage"])) = false := by
      simp [hst]
    rw [applyResourceChanges, hg]
    rfl

/-- C7 witness: the empty document `{}`. -/
theorem claim_C7_witness :
    maxAllDwellers (.obj []) = .ok (.obj [], 0) ∧
    ∀ inputs, otruthy (getPath (.obj []) ["vault", "storage"]) = false →
      applyResourceChanges inputs (.obj []) = .ok (.obj [], 0) :=
  claim_C7 (.obj []) (Or.inl rfl)

/-- C7 counterexample input table: the `food` box holds the valid edit
`7`. -/
def c7in : String → Option String := fun id =>
  if id = "food-input" then some "7" else none

/-- C7 counterexample document: the `vault.storage` section passes the
guard, but the expected `resources` section under it is absent. -/
def c7doc : JValue :=
  .obj [("vault", .obj [("storage", .obj [("rooms", .arr [])])])]

/-- C7, counterexample to the claim's general clause: the expected
`vault.storage.resources` section is missing, yet the batch resource
edit does not degrade to a no-op reporting zero — it throws a TypeError
(`resources[resourceKey] = value` on `undefined`). -/
theorem claim_C7_cex : applyResourceChanges c7in c7doc = .error () := by rfl

/-! ## Single-resident editor: `applyDwellerChanges` (renderer.js 670-719) -/

/-- The basic-stat loop (renderer.js 684-692): `parseFloat` each box;
when not NaN, `setNestedValue(dweller, field, value)` and count — no
range check of any kind. -/
def applyBasics (d : JValue) : List (String × String) → Except Unit (JValue × Nat)
  | [] => .ok (d, 0)
  | (field, s) :: rest =>
    match parseFloat s with
    | .nan => applyBasics d rest
    | v =>
      match setKeysJ d (splitPath field) (.num v) with
      | .error e => .error e
      | .ok d1 =>
        match applyBasics d1 rest with
        | .error e => .error e
        | .ok pr => .ok (pr.1, pr.2 + 1)

/-- One SPECIAL write (renderer.js 695-709): create the
`serializeableSpecialStats`/`stats` containers when absent or falsy,
then `stats[statIndex] = value`.  The JavaScript original throws when
the resident is not an object or `serializeableSpecialStats` is a truthy
primitive; a write into a truthy primitive `stats` is silently lost. -/
def specialWrite (d : JValue) (i : Nat) (n : Int) : Except Unit JValue :=
  match d with
  | .obj f =>
    let f1 := match lookupField f "serializeableSpecialStats" with
      | some c =>
        if truthy c then f
        else setField f "serializeableSpecialStats" (.obj [("stats", .obj [])])
      | none => setField f "serializeableSpecialStats" (.obj [("stats", .obj [])])
    match lookupField f1 "serializeableSpecialStats" with
    | some (.obj sf) =>
      let sf1 := match lookupField sf "stats" with
        | some st => if truthy st then sf else setField sf "stats" (.obj [])
        | none => setField sf "stats" (.obj [])
      match lookupField sf1 "stats" with
      | some (.obj stf) =>
        .ok (.obj (setField f1 "serializeableSpecialStats"
          (.obj (setField sf1 "stats"
            (.obj (setField stf (Nat.repr i) (.num (.fin n))))))))
      | some st => if truthy st then .ok (.obj f1) else .error ()
      | none => .error ()
    | some _ => .error ()
    | none => .error ()
  | _ => .error ()

/-- The SPECIAL loop (renderer.js 695-710): `parseInt` each box; apply
only integers in [1,10], counting each applied edit. -/
def applySpecials (d : JValue) : List (Nat × String) → Except Unit (JValue × Nat)
  | [] => .ok (d, 0)
  | (i, s) :: rest =>
    match parseIntJS s with
    | none => applySpecials d rest
    | some n =>
      if 1 ≤ n ∧ n ≤ 10 then
        match specialWrite d i n with
        | .error e => .error e
        | .ok d1 =>
          match applySpecials d1 rest with
          | .error e => .error e
          | .ok pr => .ok (pr.1, pr.2 + 1)
      else applySpecials d rest

/-- `applyDwellerChanges` on one resident record (renderer.js 681-711):
the card's basic inputs, then its SPECIAL inputs, with the total applied
count. -/
def applyDwellerChanges (bvals : List (String × String)) (svals : List (Nat × String))
    (d : JValue) : Except Unit (JValue × Nat) :=
  match applyBasics d bvals with
  | .error e => .error e
  | .ok (d1, n1) =>
    match applySpecials d1 svals with
    | .error e => .error e
    | .ok (d2, n2) => .ok (d2, n1 + n2)

/-- The three basic inputs of a dweller card, with their fixed
`data-field` paths (renderer.js 588, 592, 596). -/
def cardFields (s1 s2 s3 : String) : List (String × String) :=
  [("experience.currentLevel", s1), ("happiness.happinessValue", s2),
   ("health.healthValue", s3)]

/-- The seven SPECIAL inputs of a dweller card (renderer.js 605-629). -/
def cardSpecials (t1 t2 t3 t4 t5 t6 t7 : String) : List (Nat × String) :=
  [(1, t1), (2, t2), (3, t3), (4, t4), (5, t5), (6, t6), (7, t7)]

/-- Whether a basic edit is applied: the text parses to a non-NaN
number. -/
def basicApplied (s : String) : Bool := !(parseFloat s).isNaN

/-- The value a SPECIAL edit writes, when accepted: an integer in
[1,10] (`parseInt` truncates towards zero first). -/
def specEdit (s : String) : Option Int :=
  match parseIntJS s with
  | some n => if 1 ≤ n ∧ n ≤ 10 then some n else none
  | none => none

/-- The container an update descends into: its fields when it is an
object, fresh otherwise. -/
def childFields (f : List (String × JValue)) (A : String) : List (String × JValue) :=
  match lookupField f A with
  | some (.obj cf) => cf
  | _ => []

theorem setKeysJ_two (f : List (String × JValue)) (A B : String) (v : JValue)
    (hA : fieldObjOk f A = true) :
    setKeysJ (.obj f) [A, B] v =
      .ok (.obj (setField f A (.obj (setField (childFields f A) B v)))) := by
  cases hc : lookupField f A with
  | none => simp [setKeysJ, childFields, hc, Except.map]
  | some c =>
    rw [fieldObjOk, hc] at hA
    by_cases ht : truthy c = true
    · cases c with
      | obj cf => simp [setKeysJ, childFields, hc, ht, Except.map]
      | null => simp [truthy] at ht
      | bool b => simp [ht] at hA
      | num n => simp [ht] at hA
      | str s => simp [ht] at hA
      | arr es => simp [ht] at hA
    · simp only [Bool.not_eq_true] at ht
      cases c with
      | obj cf => simp [truthy] at ht
      | null => simp [setKeysJ, childFields, hc, ht, Except.map]
      | bool b => simp [setKeysJ, childFields, hc, ht, Except.map]
      | num n => simp [setKeysJ, childFields, hc, ht, Except.map]
      | str s => simp [setKeysJ, childFields, hc, ht, Except.map]
      | arr es => simp [setKeysJ, childFields, hc, ht, Except.map]

/-- Case split on a JavaScript number being NaN. -/
def numOr {α : Type} (v : JSNum) (a : α) (g : JSNum → α) : α :=
  match v with
  | .nan => a
  | w => g w

theorem numOr_nan {α : Type} (a : α) (g : JSNum → α) : numOr .nan a g = a := rfl

theorem numOr_app {α : Type} (v : JSNum) (a : α) (g : JSNum → α) (h : v ≠ .nan) :
    numOr v a g = g v := by
  cases v with
  | nan => exact absurd rfl h
  | inf => rfl
  | ninf => rfl
  | fin q => rfl

/-- One basic write, described denotationally: when the text parses,
replace the (possibly created) container's leaf. -/
def basicStep (fz : List (String × JValue)) (A B s : String) :
    List (String × JValue) :=
  numOr (parseFloat s) fz (fun v => setField fz A
    (.obj (setField (childFields fz A) B (.num v))))

theorem basicStep_def (fz : List (String × JValue)) (A B s : String) :
    basicStep fz A B s = numOr (parseFloat s) fz (fun v => setField fz A
      (.obj (setField (childFields fz A) B (.num v)))) := rfl

/-- The record's fields after the card's three basic writes. -/
def basicsResult (f : List (String × JValue)) (s1 s2 s3 : String) :
    List (String × JValue) :=
  basicStep (basicStep (basicStep f "experience" "currentLevel" s1)
    "happiness" "happinessValue" s2) "health" "healthValue" s3

theorem fieldObjOk_setField_ne (f : List (String × JValue)) (A k : String) (v : JValue)
    (h : A ≠ k) : fieldObjOk (setField f A v) k = fieldObjOk f k := by
  rw [fieldObjOk, fieldObjOk, lookupField_setField_ne _ _ _ _ h]

theorem basicApplied_false (s : String) (h : basicApplied s = false) :
    parseFloat s = .nan := by
  rw [basicApplied] at h
  cases hp : parseFloat s <;> simp [hp, JSNum.isNaN] at h ⊢

theorem basicApplied_true (s : String) (h : basicApplied s = true) :
    parseFloat s ≠ .nan := by
  rw [basicApplied] at h
  intro hp
  simp [hp, JSNum.isNaN] at h

theorem applyBasics_cons_nan (d : JValue) (field s : String)
    (rest : List (String × String)) (h : parseFloat s = .nan) :
    applyBasics d ((field, s) :: rest) = applyBasics d rest := by
  simp only [applyBasics, h]

theorem applyBasics_cons_app (d d1 : JValue) (field s : String)
    (rest : List (String × String)) (hnan : parseFloat s ≠ .nan)
    (hset : setKeysJ d (splitPath field) (.num (parseFloat s)) = .ok d1) :
    applyBasics d ((field, s) :: rest) =
      (match applyBasics d1 rest with
       | .error e => .error e
       | .ok pr => .ok (pr.1, pr.2 + 1)) := by
  cases hp : parseFloat s with
  | nan => exact absurd hp hnan
  | inf =>
    rw [hp] at hset
    simp only [applyBasics, hp, hset]
  | ninf =>
    rw [hp] at hset
    simp only [applyBasics, hp, hset]
  | fin q =>
    rw [hp] at hset
    simp only [applyBasics, hp, hset]

theorem basicStep_app (fz : List (String × JValue)) (A B s : String)
    (hb : basicApplied s = true) :
    basicStep fz A B s = setField fz A
      (.obj (setField (childFields fz A) B (.num (parseFloat s)))) := by
  rw [basicStep_def, numOr_app _ _ _ (basicApplied_true _ hb)]

theorem basicStep_nan (fz : List (String × JValue)) (A B s : String)
    (hb : basicApplied s = false) :
    basicStep fz A B s = fz := by
  rw [basicStep_def, basicApplied_false _ hb, numOr_nan]

theorem fieldObjOk_basicStep_ne (fz : List (String × JValue)) (A B s k : String)
    (hk : A ≠ k) : fieldObjOk (basicStep fz A B s) k = fieldObjOk fz k := by
  by_cases hb : basicApplied s = true
  · rw [basicStep_app _ _ _ _ hb, fieldObjOk_setField_ne _ _ _ _ hk]
  · simp only [Bool.not_eq_true] at hb
    rw [basicStep_nan _ _ _ _ hb]

theorem lookupField_basicStep_ne (fz : List (String × JValue)) (A B s k : String)
    (hk : A ≠ k) : lookupField (basicStep fz A B s) k = lookupField fz k := by
  by_cases hb : basicApplied s = true
  · rw [basicStep_app _ _ _ _ hb, lookupField_setField_ne _ _ _ _ hk]
  · simp only [Bool.not_eq_true] at hb
    rw [basicStep_nan _ _ _ _ hb]

theorem getKeys_basicStep_ne (fz : List (String × JValue)) (A B s k l : String)
    (hk : A ≠ k) :
    getKeys (.obj (basicStep fz A B s)) [k, l] = getKeys (.obj fz) [k, l] := by
  simp only [getKeys, lookupField_basicStep_ne _ _ _ _ _ hk]

theorem getKeys_basicStep_self (fz : List (String × JValue)) (A B s : String) :
    getKeys (.obj (basicStep fz A B s)) [A, B] =
      numOr (parseFloat s) (getKeys (.obj fz) [A, B]) (fun v => some (.num v)) := by
  by_cases hb : basicApplied s = true
  · rw [basicStep_app _ _ _ _ hb, numOr_app _ _ _ (basicApplied_true _ hb)]
    simp [getKeys, lookupField_setField_self]
  · simp only [Bool.not_eq_true] at hb
    rw [basicStep_nan _ _ _ _ hb, basicApplied_false _ hb, numOr_nan]

theorem applyBasics_card (f : List (String × JValue)) (s1 s2 s3 : String)
    (hexp : fieldObjOk f "experience" = true) (hhap : fieldObjOk f "happiness" = true)
    (hhea : fieldObjOk f "health" = true) :
    applyBasics (.obj f) (cardFields s1 s2 s3) =
      .ok (.obj (basicsResult f s1 s2 s3),
        (if basicApplied s1 then 1 else 0) + (if basicApplied s2 then 1 else 0) +
          (if basicApplied s3 then 1 else 0)) := by
  set f1 := basicStep f "experience" "currentLevel" s1 with hf1
  set f2 := basicStep f1 "happiness" "happinessValue" s2 with hf2
  set f3 := basicStep f2 "health" "healthValue" s3 with hf3
  have hres : basicsResult f s1 s2 s3 = f3 := rfl
  have hhap1 : fieldObjOk f1 "happiness" = true := by
    rw [hf1, fieldObjOk_basicStep_ne _ _ _ _ _ (by decide)]
    exact hhap
  have hhea2 : fieldObjOk f2 "health" = true := by
    rw [hf2, fieldObjOk_basicStep_ne _ _ _ _ _ (by decide), hf1,
      fieldObjOk_basicStep_ne _ _ _ _ _ (by decide)]
    exact hhea
  have step1 : applyBasics (.obj f) (cardFields s1 s2 s3) =
      (match applyBasics (.obj f1) [("happiness.happinessValue", s2),
        ("health.healthValue", s3)] with
       | .error e => .error e
       | .ok pr => .ok (pr.1, pr.2 + (if basicApplied s1 then 1 else 0))) := by
    by_cases hb : basicApplied s1 = true
    · rw [cardFields, applyBasics_cons_app (.obj f)
        (.obj (setField f "experience" (.obj (setField (childFields f "experience")
          "currentLevel" (.num (parseFloat s1)))))) "experience.currentLevel" s1
        [("happiness.happinessValue", s2), ("health.healthValue", s3)]
        (basicApplied_true _ hb)
        (show setKeysJ (.obj f) (splitPath "experience.currentLevel")
            (.num (parseFloat s1)) = _ from
          setKeysJ_two f "experience" "currentLevel" (.num (parseFloat s1)) hexp),
        hb, hf1, basicStep_app _ _ _ _ hb]
      simp only [if_true]
    · simp only [Bool.not_eq_true] at hb
      rw [cardFields, applyBasics_cons_nan _ _ _ _ (basicApplied_false _ hb), hf1,
        basicStep_nan _ _ _ _ hb, hb]
      simp only [Bool.false_eq_true, if_false]
      cases hx : applyBasics (.obj f) [("happiness.happinessValue", s2),
        ("health.healthValue", s3)] with
      | error e => rfl
      | ok pr => simp
  have step2 : applyBasics (.obj f1) [("happiness.happinessValue", s2),
      ("health.healthValue", s3)] =
      (match applyBasics (.obj f2) [("health.healthValue", s3)] with
       | .error e => .error e
       | .ok pr => .ok (pr.1, pr.2 + (if basicApplied s2 then 1 else 0))) := by
    by_cases hb : basicApplied s2 = true
    · rw [applyBasics_cons_app (.obj f1)
        (.obj (setField f1 "happiness" (.obj (setField (childFields f1 "happiness")
          "happinessValue" (.num (parseFloat s2)))))) "happiness.happinessValue" s2
        [("health.healthValue", s3)] (basicApplied_true _ hb)
        (show setKeysJ (.obj f1) (splitPath "happiness.happinessValue")
            (.num (parseFloat s2)) = _ from
          setKeysJ_two f1 "happiness" "happinessValue" (.num (parseFloat s2)) hhap1),
        hb, hf2, basicStep_app _ _ _ _ hb]
      simp only [if_true]
    · simp only [Bool.not_eq_true] at hb
      rw [applyBasics_cons_nan _ _ _ _ (basicApplied_false _ hb), hf2,
        basicStep_nan _ _ _ _ hb, hb]
      simp only [Bool.false_eq_true, if_false]
      cases hx : applyBasics (.obj f1) [("health.healthValue", s3)] with
      | error e => rfl
      | ok pr => simp
  have step3 : applyBasics (.obj f2) [("health.healthValue", s3)] =
      .ok (.obj f3, (if basicApplied s3 then 1 else 0)) := by
    by_cases hb : basicApplied s3 = true
    · rw [applyBasics_cons_app (.obj f2)
        (.obj (setField f2 "health" (.obj (setField (childFields f2 "health")
          "healthValue" (.num (parseFloat s3)))))) "health.healthValue" s3 []
        (basicApplied_true _ hb)
        (show setKeysJ (.obj f2) (splitPath "health.healthValue")
            (.num (parseFloat s3)) = _ from
          setKeysJ_two f2 "health" "healthValue" (.num (parseFloat s3)) hhea2),
        hb, hf3, basicStep_app _ _ _ _ hb]
      simp [applyBasics]
    · simp only [Bool.not_eq_true] at hb
      rw [applyBasics_cons_nan _ _ _ _ (basicApplied_false _ hb), hf3,
        basicStep_nan _ _ _ _ hb, hb]
      simp [applyBasics]
  rw [hres, step1, step2, step3]
  cases hb1 : basicApplied s1 <;> cases hb2 : basicApplied s2 <;>
    cases hb3 : basicApplied s3 <;> simp

/-- Well-shapedness of the SPECIAL containers alone. -/
def sssOk (f : List (String × JValue)) : Bool :=
  match lookupField f "serializeableSpecialStats" with
  | some c =>
    if truthy c then
      match c with
      | .obj sf => fieldObjOk sf "stats"
      | _ => false
    else true
  | none => true

theorem dwellerOk_parts (f : List (String × JValue)) (h : dwellerOk (.obj f) = true) :
    fieldObjOk f "experience" = true ∧ fieldObjOk f "happiness" = true ∧
    fieldObjOk f "health" = true ∧ sssOk f = true := by
  simp only [dwellerOk, Bool.and_eq_true] at h
  exact ⟨h.1.1.1, h.1.1.2, h.1.2, h.2⟩

/-- Read one SPECIAL stat of a record. -/
def statLookup (f : List (String × JValue)) (k : String) : Option JValue :=
  getKeys (.obj f) ["serializeableSpecialStats", "stats", k]

/-- The uniform result shape of one SPECIAL write. -/
def specResult (f SF1 STF : List (String × JValue)) (i : Nat) (n : Int) : List (String × JValue) :=
  setField f "serializeableSpecialStats" (.obj (setField SF1 "stats"
    (.obj (setField STF (Nat.repr i) (.num (.fin n))))))

theorem specResult_props (f SF1 STF : List (String × JValue)) (i : Nat) (n : Int)
    (hstf : ∀ k, k ≠ Nat.repr i → lookupField STF k = statLookup f k) :
    sssOk (specResult f SF1 STF i n) = true ∧
    statLookup (specResult f SF1 STF i n) (Nat.repr i) = some (.num (.fin n)) ∧
    (∀ k, k ≠ Nat.repr i →
      statLookup (specResult f SF1 STF i n) k = statLookup f k) ∧
    (∀ k, k ≠ "serializeableSpecialStats" →
      lookupField (specResult f SF1 STF i n) k = lookupField f k) := by
  refine ⟨?_, ?_, ?_, ?_⟩
  · simp [sssOk, specResult, lookupField_setField_self, truthy, fieldObjOk]
  · simp [statLookup, specResult, getKeys, lookupField_setField_self]
  · intro k hk
    have h1 : statLookup (specResult f SF1 STF i n) k =
        (match lookupField STF k with
         | some c => some c
         | none => none) := by
      simp only [statLookup, specResult, getKeys, lookupField_setField_self,
        lookupField_setField_ne _ _ _ _ (fun he => hk he.symm)]
    rw [h1, hstf k hk]
    cases hx : statLookup f k <;> rfl
  · intro k hk
    exact lookupField_setField_ne _ _ _ _ (fun he => hk he.symm)

theorem specialWrite_spec (f : List (String × JValue)) (hs : sssOk f = true)
    (i : Nat) (n : Int) :
    ∃ SF1 STF, specialWrite (.obj f) i n = .ok (.obj (specResult f SF1 STF i n)) ∧
      (∀ k, k ≠ Nat.repr i → lookupField STF k = statLookup f k) := by
  rw [sssOk] at hs
  cases hc : lookupField f "serializeableSpecialStats" with
  | none =>
    refine ⟨[("stats", .obj [])], [], ?_, ?_⟩
    · simp only [specialWrite, hc, lookupField_setField_self, truthy_obj, if_true,
        specResult, setField_setField]
      rfl
    · intro k hk
      simp [statLookup, getKeys, hc, lookupField]
  | some c =>
    simp only [hc] at hs
    by_cases ht : truthy c = true
    · rw [if_pos ht] at hs
      cases c with
      | obj sf => ?_
      | null => simp [truthy] at ht
      | bool b => simp at hs
      | num m => simp at hs
      | str s2 => simp at hs
      | arr es => simp at hs
      cases hst : lookupField sf "stats" with
      | none =>
        refine ⟨setField sf "stats" (.obj []), [], ?_, ?_⟩
        · simp only [specialWrite, hc, ht, if_true, hst, lookupField_setField_self,
            truthy_obj, specResult]
        · intro k hk
          simp [statLookup, getKeys, hc, hst, lookupField]
      | some st =>
        simp only [fieldObjOk, hst] at hs
        by_cases hts : truthy st = true
        · have hobj : ∃ stf, st = .obj stf := by
            cases st with
            | obj stf => exact ⟨stf, rfl⟩
            | null => simp [truthy] at hts
            | bool b => simp [hts] at hs
            | num m => simp [hts] at hs
            | str s2 => simp [hts] at hs
            | arr es => simp [hts] at hs
          obtain ⟨stf, rfl⟩ := hobj
          refine ⟨sf, stf, ?_, ?_⟩
          · simp only [specialWrite, hc, ht, if_true, hst, truthy_obj, specResult]
          · intro k hk
            simp only [statLookup, getKeys, hc, hst]
            cases lookupField stf k <;> rfl
        · simp only [Bool.not_eq_true] at hts
          refine ⟨setField sf "stats" (.obj []), [], ?_, ?_⟩
          · simp only [specialWrite, hc, ht, if_true, hst, hts, Bool.false_eq_true,
              if_false, lookupField_setField_self, truthy_obj, specResult]
          · intro k hk
            cases st with
            | obj stf => simp [truthy] at hts
            | null => simp [statLookup, getKeys, hc, hst, lookupField]
            | bool b => simp [statLookup, getKeys, hc, hst, lookupField]
            | num m => simp [statLookup, getKeys, hc, hst, lookupField]
            | str s2 => simp [statLookup, getKeys, hc, hst, lookupField]
            | arr es => simp [statLookup, getKeys, hc, hst, lookupField]
    · simp only [Bool.not_eq_true] at ht
      refine ⟨[("stats", .obj [])], [], ?_, ?_⟩
      · simp only [specialWrite, hc, ht, Bool.false_eq_true, if_false,
          lookupField_setField_self, truthy_obj, if_true, specResult, setField_setField]
        rfl
      · intro k hk
        cases c with
        | obj cf => simp [truthy] at ht
        | null => simp [statLookup, getKeys, hc, lookupField]
        | bool b => simp [statLookup, getKeys, hc, lookupField]
        | num m => simp [statLookup, getKeys, hc, lookupField]
        | str s2 => simp [statLookup, getKeys, hc, lookupField]
        | arr es => simp [statLookup, getKeys, hc, lookupField]

theorem getKeys_obj_cons (f : List (String × JValue)) (k : String) (rest : List String) :
    getKeys (.obj f) (k :: rest) =
      (match lookupField f k with
       | some c => getKeys c rest
       | none => none) := rfl

theorem sssOk_congr (f g : List (String × JValue))
    (h : lookupField f "serializeableSpecialStats" =
      lookupField g "serializeableSpecialStats") : sssOk f = sssOk g := by
  rw [sssOk, sssOk, h]

theorem statLookup_congr (f g : List (String × JValue)) (k : String)
    (h : lookupField f "serializeableSpecialStats" =
      lookupField g "serializeableSpecialStats") : statLookup f k = statLookup g k := by
  rw [statLookup, statLookup, getKeys_obj_cons, getKeys_obj_cons, h]

theorem basicsResult_exp (f : List (String × JValue)) (s1 s2 s3 : String) :
    getKeys (.obj (basicsResult f s1 s2 s3)) ["experience", "currentLevel"] =
      numOr (parseFloat s1) (getKeys (.obj f) ["experience", "currentLevel"])
        (fun v => some (.num v)) := by
  rw [basicsResult, getKeys_basicStep_ne _ _ _ _ _ _ (by decide),
    getKeys_basicStep_ne _ _ _ _ _ _ (by decide), getKeys_basicStep_self]

theorem basicsResult_hap (f : List (String × JValue)) (s1 s2 s3 : String) :
    getKeys (.obj (basicsResult f s1 s2 s3)) ["happiness", "happinessValue"] =
      numOr (parseFloat s2) (getKeys (.obj f) ["happiness", "happinessValue"])
        (fun v => some (.num v)) := by
  rw [basicsResult, getKeys_basicStep_ne _ _ _ _ _ _ (by decide), getKeys_basicStep_self,
    getKeys_basicStep_ne _ _ _ _ _ _ (by decide)]

theorem basicsResult_hea (f : List (String × JValue)) (s1 s2 s3 : String) :
    getKeys (.obj (basicsResult f s1 s2 s3)) ["health", "healthValue"] =
      numOr (parseFloat s3) (getKeys (.obj f) ["health", "healthValue"])
        (fun v => some (.num v)) := by
  rw [basicsResult, getKeys_basicStep_self, getKeys_basicStep_ne _ _ _ _ _ _ (by decide),
    getKeys_basicStep_ne _ _ _ _ _ _ (by decide)]

theorem basicsResult_sss (f : List (String × JValue)) (s1 s2 s3 : String) :
    lookupField (basicsResult f s1 s2 s3) "serializeableSpecialStats" =
      lookupField f "serializeableSpecialStats" := by
  rw [basicsResult, lookupField_basicStep_ne _ _ _ _ _ (by decide),
    lookupField_basicStep_ne _ _ _ _ _ (by decide),
    lookupField_basicStep_ne _ _ _ _ _ (by decide)]

theorem applySpecials_ok (svals : List (Nat × String)) :
    ∀ f, sssOk f = true → (svals.map (fun p => Nat.repr p.1)).Nodup →
    ∃ f', applySpecials (.obj f) svals =
        .ok (.obj f', svals.countP (fun p => (specEdit p.2).isSome)) ∧
      sssOk f' = true ∧
      (∀ p ∈ svals, statLookup f' (Nat.repr p.1) =
        (match specEdit p.2 with
         | some m => some (.num (.fin m))
         | none => statLookup f (Nat.repr p.1))) ∧
      (∀ k, k ∉ svals.map (fun p => Nat.repr p.1) → statLookup f' k = statLookup f k) ∧
      (∀ k, k ≠ "serializeableSpecialStats" → lookupField f' k = lookupField f k) := by
  induction svals with
  | nil =>
    intro f hs _
    exact ⟨f, rfl, hs, by simp, fun _ _ => rfl, fun _ _ => rfl⟩
  | cons p rest ih =>
    obtain ⟨i, s⟩ := p
    intro f hs hnd
    simp only [List.map_cons, List.nodup_cons] at hnd
    obtain ⟨hki, hnd⟩ := hnd
    cases hv : specEdit s with
    | none =>
      obtain ⟨f', hrun, hs', hmem, hout, htop⟩ := ih f hs hnd
      have hskip : applySpecials (.obj f) ((i, s) :: rest) = applySpecials (.obj f) rest := by
        rw [specEdit] at hv
        cases hp : parseIntJS s with
        | none => simp only [applySpecials, hp]
        | some m =>
          simp only [hp] at hv
          have hcond : ¬(1 ≤ m ∧ m ≤ 10) := by
            intro hc
            rw [if_pos hc] at hv
            cases hv
          simp only [applySpecials, hp, if_neg hcond]
      refine ⟨f', ?_, hs', ?_, ?_, htop⟩
      · rw [hskip, hrun]
        simp [List.countP_cons, hv]
      · intro p hp
        rcases List.mem_cons.mp hp with rfl | hp
        · simp only [hv]
          exact hout (Nat.repr i) hki
        · exact hmem p hp
      · intro k hk
        simp only [List.map_cons, List.mem_cons, not_or] at hk
        exact hout k hk.2
    | some m =>
      have hp : parseIntJS s = some m ∧ (1 ≤ m ∧ m ≤ 10) := by
        rw [specEdit] at hv
        cases hp2 : parseIntJS s with
        | none => simp only [hp2] at hv; cases hv
        | some m2 =>
          simp only [hp2] at hv
          by_cases hc : 1 ≤ m2 ∧ m2 ≤ 10
          · rw [if_pos hc] at hv
            cases hv
            exact ⟨rfl, hc⟩
          · rw [if_neg hc] at hv
            cases hv
      obtain ⟨SF1, STF, hw, hstf⟩ := specialWrite_spec f hs i m
      obtain ⟨hok1, hstat1, hstatne1, htopne1⟩ := specResult_props f SF1 STF i m hstf
      obtain ⟨f', hrun, hs', hmem, hout, htop⟩ := ih (specResult f SF1 STF i m) hok1 hnd
      refine ⟨f', ?_, hs', ?_, ?_, ?_⟩
      · simp only [applySpecials, hp.1, if_pos hp.2, hw, hrun]
        simp [List.countP_cons, hv, Nat.add_comm]
      · intro p hp2
        rcases List.mem_cons.mp hp2 with rfl | hp2
        · simp only [hv]
          rw [hout (Nat.repr i) hki, hstat1]
        · rw [hmem p hp2]
          cases hv2 : specEdit p.2 with
          | some m2 => simp
          | none =>
            have hne : Nat.repr p.1 ≠ Nat.repr i := by
              intro he
              exact hki (he ▸ List.mem_map_of_mem (fun q => Nat.repr q.1) hp2)
            simp only [hstatne1 (Nat.repr p.1) hne]
      · intro k hk
        simp only [List.map_cons, List.mem_cons, not_or] at hk
        rw [hout k hk.2, hstatne1 k hk.1]
      · intro k hk
        rw [htop k hk, htopne1 k hk]

/-- C8.  Amended: on a well-shaped resident record, `applyDwellerChanges`
accepts a level/happiness/health edit exactly when the text parses to a
number that is not NaN — `Infinity` is accepted, so "finite" in the
claim is wrong — and accepts a SPECIAL edit exactly when it parses to an
integer in [1,10]; each rejected edit is skipped individually, leaving
its target unchanged while the others still apply, and the returned
count is the number of edits applied. -/
theorem claim_C8 (f : List (String × JValue)) (s1 s2 s3 t1 t2 t3 t4 t5 t6 t7 : String)
    (hok : dwellerOk (.obj f) = true) :
    ∃ f', applyDwellerChanges (cardFields s1 s2 s3) (cardSpecials t1 t2 t3 t4 t5 t6 t7)
        (.obj f) =
      .ok (.obj f',
        ((if basicApplied s1 then 1 else 0) + (if basicApplied s2 then 1 else 0) +
          (if basicApplied s3 then 1 else 0)) +
        (cardSpecials t1 t2 t3 t4 t5 t6 t7).countP (fun p => (specEdit p.2).isSome)) ∧
      getKeys (.obj f') ["experience", "currentLevel"] =
        numOr (parseFloat s1) (getKeys (.obj f) ["experience", "currentLevel"])
          (fun v => some (.num v)) ∧
      getKeys (.obj f') ["happiness", "happinessValue"] =
        numOr (parseFloat s2) (getKeys (.obj f) ["happiness", "happinessValue"])
          (fun v => some (.num v)) ∧
      getKeys (.obj f') ["health", "healthValue"] =
        numOr (parseFloat s3) (getKeys (.obj f) ["health", "healthValue"])
          (fun v => some (.num v)) ∧
      ∀ p ∈ cardSpecials t1 t2 t3 t4 t5 t6 t7,
        statLookup f' (Nat.repr p.1) =
          (match specEdit p.2 with
           | some m => some (.num (.fin m))
           | none => statLookup f (Nat.repr p.1)) := by
  obtain ⟨hexp, hhap, hhea, hsok⟩ := dwellerOk_parts f hok
  have hB := applyBasics_card f s1 s2 s3 hexp hhap hhea
  set f3 := basicsResult f s1 s2 s3 with hf3
  have hsss3 : lookupField f3 "serializeableSpecialStats" =
      lookupField f "serializeableSpecialStats" := basicsResult_sss f s1 s2 s3
  have hsok3 : sssOk f3 = true := by
    rw [sssOk_congr f3 f hsss3]
    exact hsok
  have hnd : (List.map (fun p => Nat.repr p.1)
      (cardSpecials t1 t2 t3 t4 t5 t6 t7)).Nodup := by
    simp only [cardSpecials, List.map_cons, List.map_nil]
    decide
  obtain ⟨f', hrun, hs', hmem, hout, htop⟩ :=
    applySpecials_ok (cardSpecials t1 t2 t3 t4 t5 t6 t7) f3 hsok3 hnd
  refine ⟨f', ?_, ?_, ?_, ?_, ?_⟩
  · simp only [applyDwellerChanges, hB, hrun]
  · rw [getKeys_obj_cons, htop "experience" (by decide), ← getKeys_obj_cons, hf3,
      basicsResult_exp]
  · rw [getKeys_obj_cons, htop "happiness" (by decide), ← getKeys_obj_cons, hf3,
      basicsResult_hap]
  · rw [getKeys_obj_cons, htop "health" (by decide), ← getKeys_obj_cons, hf3,
      basicsResult_hea]
  · intro p hp
    rw [hmem p hp]
    cases specEdit p.2 with
    | some m => rfl
    | none => exact statLookup_congr f3 f (Nat.repr p.1) hsss3

theorem claim_C8_witness :
    dwellerOk (.obj [("experience", .obj [("currentLevel", .num (.fin 5))])]) = true ∧
    ∃ f', applyDwellerChanges (cardFields "50" "bad" "")
        (cardSpecials "7" "" "0" "11" "2.9" "x" "")
        (.obj [("experience", .obj [("currentLevel", .num (.fin 5))])]) =
      .ok (.obj f',
        ((if basicApplied "50" then 1 else 0) + (if basicApplied "bad" then 1 else 0) +
          (if basicApplied "" then 1 else 0)) +
        (cardSpecials "7" "" "0" "11" "2.9" "x" "").countP
          (fun p => (specEdit p.2).isSome)) ∧
      getKeys (.obj f') ["experience", "currentLevel"] =
        numOr (parseFloat "50")
          (getKeys (.obj [("experience", .obj [("currentLevel", .num (.fin 5))])])
            ["experience", "currentLevel"]) (fun v => some (.num v)) ∧
      getKeys (.obj f') ["happiness", "happinessValue"] =
        numOr (parseFloat "bad")
          (getKeys (.obj [("experience", .obj [("currentLevel", .num (.fin 5))])])
            ["happiness", "happinessValue"]) (fun v => some (.num v)) ∧
      getKeys (.obj f') ["health", "healthValue"] =
        numOr (parseFloat "")
          (getKeys (.obj [("experience", .obj [("currentLevel", .num (.fin 5))])])
            ["health", "healthValue"]) (fun v => some (.num v)) ∧
      ∀ p ∈ cardSpecials "7" "" "0" "11" "2.9" "x" "",
        statLookup f' (Nat.repr p.1) =
          (match specEdit p.2 with
           | some m => some (.num (.fin m))
           | none =>
             statLookup [("experience", .obj [("currentLevel", .num (.fin 5))])]
               (Nat.repr p.1)) :=
  ⟨by decide,
   claim_C8 [("experience", .obj [("currentLevel", .num (.fin 5))])]
     "50" "bad" "" "7" "" "0" "11" "2.9" "x" "" (by decide)⟩

/-- C8, counterexample to the spec as written: the text `Infinity`
parses to a number that is not NaN, so the happiness edit is applied and
counted even though the value is not finite — `happinessValue` becomes
`Infinity`. -/
theorem claim_C8_cex :
    applyDwellerChanges (cardFields "" "Infinity" "") (cardSpecials "" "" "" "" "" "" "")
        (.obj [("happiness", .obj [("happinessValue", .num (.fin 50))])]) =
      .ok (.obj [("happiness", .obj [("happinessValue", .num .inf)])], 1) := by rfl

/-! ## The save-file codec (renderer.js 10-12, 181-218) -/

/-- A byte. -/
abbrev Byte := Fin 256

/-- The byte of a machine word, reduced mod 256. -/
def byteOf (n : Nat) : Byte := ⟨n % 256, Nat.mod_lt _ (by omega)⟩

theorem byteOf_val (n : Nat) (h : n < 256) : (byteOf n).val = n := Nat.mod_eq_of_lt h

/-- Bytewise exclusive or. -/
def xorB (a b : Byte) : Byte := byteOf (a.val ^^^ b.val)

theorem xorB_xorB (a b : Byte) : xorB a (xorB a b) = b := by
  have hab : a.val ^^^ b.val < 256 := by
    have h : a.val ^^^ b.val < 2 ^ 8 :=
      Nat.xor_lt_two_pow (by omega) (by omega)
    omega
  apply Fin.ext
  show (a.val ^^^ ((a.val ^^^ b.val) % 256)) % 256 = b.val
  rw [Nat.mod_eq_of_lt hab]
  have h2 : a.val ^^^ (a.val ^^^ b.val) = b.val := by
    rw [← Nat.xor_assoc, Nat.xor_self, Nat.zero_xor]
  rw [h2, Nat.mod_eq_of_lt b.isLt]

/-- XOR two blocks bytewise. -/
def xorBlock (a b : List Byte) : List Byte := List.zipWith xorB a b

theorem length_xorBlock (a b : List Byte) :
    (xorBlock a b).length = min a.length b.length := by
  simp [xorBlock]

theorem xorBlock_xorBlock (a : List Byte) :
    ∀ b : List Byte, b.length ≤ a.length → xorBlock a (xorBlock a b) = b := by
  induction a with
  | nil =>
    intro b hb
    have : b = [] := List.eq_nil_of_length_eq_zero (Nat.le_zero.mp hb)
    subst this
    rfl
  | cons x a ih =>
    intro b hb
    cases b with
    | nil => rfl
    | cons y b =>
      show xorB x (xorB x y) :: xorBlock a (xorBlock a b) = y :: b
      rw [xorB_xorB, ih b (by simpa using hb)]

/-- An abstract 16-byte block cipher with its inverse law.  Modelled
from the spec: the AES core is the `crypto-js` library's, which is not
among the repository's files; only its block length and the
decrypt-inverts-encrypt law are used. -/
structure BlockCipher where
  encB : List Byte → List Byte
  decB : List Byte → List Byte
  len_encB : ∀ b, b.length = 16 → (encB b).length = 16
  decB_encB : ∀ b, b.length = 16 → decB (encB b) = b

/-- CBC encryption (modelled from the spec), eating the padded message
16 bytes at a time; `fuel` bounds the recursion and is in practice the
message length. -/
def cbcEnc (C : BlockCipher) : Nat → List Byte → List Byte → List Byte
  | 0, _, _ => []
  | fuel + 1, iv, bs =>
    match bs with
    | [] => []
    | _ =>
      C.encB (xorBlock iv (bs.take 16)) ++
        cbcEnc C fuel (C.encB (xorBlock iv (bs.take 16))) (bs.drop 16)

/-- CBC decryption (modelled from the spec). -/
def cbcDec (C : BlockCipher) : Nat → List Byte → List Byte → List Byte
  | 0, _, _ => []
  | fuel + 1, iv, cs =>
    match cs with
    | [] => []
    | _ =>
      xorBlock iv (C.decB (cs.take 16)) ++
        cbcDec C fuel (cs.take 16) (cs.drop 16)

theorem cbcEnc_ne (C : BlockCipher) (fuel : Nat) (iv cs : List Byte) (h : cs ≠ []) :
    cbcEnc C (fuel + 1) iv cs =
      C.encB (xorBlock iv (cs.take 16)) ++
        cbcEnc C fuel (C.encB (xorBlock iv (cs.take 16))) (cs.drop 16) := by
  cases cs with
  | nil => exact absurd rfl h
  | cons c cs => rfl

theorem cbcDec_ne (C : BlockCipher) (fuel : Nat) (iv cs : List Byte) (h : cs ≠ []) :
    cbcDec C (fuel + 1) iv cs =
      xorBlock iv (C.decB (cs.take 16)) ++ cbcDec C fuel (cs.take 16) (cs.drop 16) := by
  cases cs with
  | nil => exact absurd rfl h
  | cons c cs => rfl

theorem cbcEnc_length (C : BlockCipher) (fuel : Nat) :
    ∀ iv bs : List Byte, iv.length = 16 → bs.length % 16 = 0 →
      bs.length ≤ 16 * fuel → (cbcEnc C fuel iv bs).length = bs.length := by
  induction fuel with
  | zero =>
    intro iv bs _ _ hle
    have : bs = [] := List.eq_nil_of_length_eq_zero (by omega)
    subst this
    rfl
  | succ n ih =>
    intro iv bs hiv hmod hle
    cases hb : bs with
    | nil => rfl
    | cons b bs' =>
      rw [← hb, cbcEnc_ne C n iv bs (by rw [hb]; exact List.cons_ne_nil b bs')]
      have h0 : bs.length ≠ 0 := by
        rw [hb]
        simp
      have hlen : 16 ≤ bs.length := by omega
      have htake : (bs.take 16).length = 16 := by
        rw [List.length_take]
        omega
      have hx : (xorBlock iv (bs.take 16)).length = 16 := by
        rw [length_xorBlock, hiv, htake]
        omega
      have hc : (C.encB (xorBlock iv (bs.take 16))).length = 16 := C.len_encB _ hx
      rw [List.length_append, hc,
        ih (C.encB (xorBlock iv (bs.take 16))) (bs.drop 16) hc
          (by rw [List.length_drop]; omega) (by rw [List.length_drop]; omega),
        List.length_drop]
      omega

theorem cbcDec_cbcEnc (C : BlockCipher) (fe : Nat) :
    ∀ fd iv bs, iv.length = 16 → bs.length % 16 = 0 → bs.length ≤ 16 * fe →
      bs.length ≤ 16 * fd → cbcDec C fd iv (cbcEnc C fe iv bs) = bs := by
  induction fe with
  | zero =>
    intro fd iv bs _ _ hle _
    have : bs = [] := List.eq_nil_of_length_eq_zero (by omega)
    subst this
    cases fd <;> rfl
  | succ n ih =>
    intro fd iv bs hiv hmod hle hld
    cases hb : bs with
    | nil =>
      subst hb
      cases fd <;> rfl
    | cons b bs' =>
      rw [← hb]
      have hne : bs ≠ [] := by rw [hb]; exact List.cons_ne_nil b bs'
      have h0 : bs.length ≠ 0 := by
        rw [hb]
        simp
      have hlen : 16 ≤ bs.length := by omega
      cases fd with
      | zero => omega
      | succ m =>
        rw [cbcEnc_ne C n iv bs hne]
        have htake : (bs.take 16).length = 16 := by
          rw [List.length_take]
          omega
        have hx : (xorBlock iv (bs.take 16)).length = 16 := by
          rw [length_xorBlock, hiv, htake]
          omega
        have hc : (C.encB (xorBlock iv (bs.take 16))).length = 16 := C.len_encB _ hx
        have hcne : C.encB (xorBlock iv (bs.take 16)) ++
            cbcEnc C n (C.encB (xorBlock iv (bs.take 16))) (bs.drop 16) ≠ [] := by
          intro he
          have := congrArg List.length he
          rw [List.length_append, hc] at this
          simp at this
        rw [cbcDec_ne C m iv _ hcne]
        have take16 : ∀ c r : List Byte, c.length = 16 → (c ++ r).take 16 = c := by
          intro c r h
          rw [← h]
          exact List.take_left c r
        have drop16 : ∀ c r : List Byte, c.length = 16 → (c ++ r).drop 16 = r := by
          intro c r h
          rw [← h]
          exact List.drop_left c r
        have htl := take16 (C.encB (xorBlock iv (bs.take 16)))
          (cbcEnc C n (C.encB (xorBlock iv (bs.take 16))) (bs.drop 16)) hc
        have hdl := drop16 (C.encB (xorBlock iv (bs.take 16)))
          (cbcEnc C n (C.encB (xorBlock iv (bs.take 16))) (bs.drop 16)) hc
        rw [htl, hdl, C.decB_encB _ hx,
          xorBlock_xorBlock iv (bs.take 16) (by rw [htake, hiv]),
          ih m (C.encB (xorBlock iv (bs.take 16))) (bs.drop 16) hc
            (by rw [List.length_drop]; omega) (by rw [List.length_drop]; omega)
            (by rw [List.length_drop]; omega),
          List.take_append_drop]

/-- PKCS7 padding (modelled from the spec): append p copies of the byte
p, where p = 16 - (length mod 16). -/
def pkcs7pad (bs : List Byte) : List Byte :=
  bs ++ List.replicate (16 - bs.length % 16) (byteOf (16 - bs.length % 16))

/-- PKCS7 unpadding as `crypto-js` does it (modelled from the spec):
read the last byte and truncate that many bytes, with no validation. -/
def pkcs7unpad (bs : List Byte) : Option (List Byte) :=
  match bs.getLast? with
  | some b => some (bs.take (bs.length - b.val))
  | none => none

theorem pkcs7pad_mod (bs : List Byte) : (pkcs7pad bs).length % 16 = 0 := by
  rw [pkcs7pad, List.length_append, List.length_replicate]
  omega

theorem pkcs7unpad_pkcs7pad (bs : List Byte) : pkcs7unpad (pkcs7pad bs) = some bs := by
  obtain ⟨q, hq⟩ : ∃ q, 16 - bs.length % 16 = q + 1 :=
    ⟨16 - bs.length % 16 - 1, by omega⟩
  have hlast : (pkcs7pad bs).getLast? = some (byteOf (16 - bs.length % 16)) := by
    rw [pkcs7pad, hq, List.replicate_succ' q (byteOf (q + 1)), ← List.append_assoc]
    exact List.getLast?_concat _
  have hv : (byteOf (16 - bs.length % 16)).val = 16 - bs.length % 16 :=
    byteOf_val _ (by omega)
  have h2 : (pkcs7pad bs).length - (byteOf (16 - bs.length % 16)).val = bs.length := by
    rw [hv, pkcs7pad, List.length_append, List.length_replicate]
    omega
  simp only [pkcs7unpad, hlast, h2]
  rw [pkcs7pad, List.take_left bs _]

/-- The Base64 alphabet (modelled from the spec). -/
def b64chars : List Char :=
  ['A', 'B', 'C', 'D', 'E', 'F', 'G', 'H', 'I', 'J', 'K', 'L', 'M',
   'N', 'O', 'P', 'Q', 'R', 'S', 'T', 'U', 'V', 'W', 'X', 'Y', 'Z',
   'a', 'b', 'c', 'd', 'e', 'f', 'g', 'h', 'i', 'j', 'k', 'l', 'm',
   'n', 'o', 'p', 'q', 'r', 's', 't', 'u', 'v', 'w', 'x', 'y', 'z',
   '0', '1', '2', '3', '4', '5', '6', '7', '8', '9', '+', '/']

/-- The Base64 digit of a 6-bit value. -/
def idx64 (n : Nat) : Char := b64chars.getD n 'A'

def idxOfAux : List Char → Nat → Char → Option Nat
  | [], _, _ => none
  | c :: cs, i, t => if c = t then some i else idxOfAux cs (i + 1) t

/-- The 6-bit value of a Base64 digit. -/
def idxOf (c : Char) : Option Nat := idxOfAux b64chars 0 c

theorem idxOf_idx64_fin : ∀ v : Fin 64, idxOf (idx64 v.val) = some v.val := by decide

theorem idx64_ne_pad_fin : ∀ v : Fin 64, idx64 v.val ≠ '=' := by decide

theorem idxOf_idx64 (v : Nat) (h : v < 64) : idxOf (idx64 v) = some v :=
  idxOf_idx64_fin ⟨v, h⟩

theorem idx64_ne_pad (v : Nat) (h : v < 64) : idx64 v ≠ '=' :=
  idx64_ne_pad_fin ⟨v, h⟩

/-- Base64 encoding of a byte list (modelled from the spec): three bytes
become four digits, a short final group is filled with `=`. -/
def b64EncL : List Byte → List Char
  | [] => []
  | [b1] => [idx64 (b1.val / 4), idx64 (b1.val % 4 * 16), '=', '=']
  | [b1, b2] =>
    [idx64 (b1.val / 4), idx64 (b1.val % 4 * 16 + b2.val / 16),
     idx64 (b2.val % 16 * 4), '=']
  | b1 :: b2 :: b3 :: rest =>
    idx64 (b1.val / 4) :: idx64 (b1.val % 4 * 16 + b2.val / 16) ::
      idx64 (b2.val % 16 * 4 + b3.val / 64) :: idx64 (b3.val % 64) :: b64EncL rest

/-- Base64 decoding (modelled from the spec), `none` on malformed
input. -/
def b64DecL : List Char → Option (List Byte)
  | [] => some []
  | c1 :: c2 :: c3 :: c4 :: rest =>
    match idxOf c1, idxOf c2 with
    | some v1, some v2 =>
      if c3 = '=' then
        if c4 = '=' ∧ rest = [] then some [byteOf (v1 * 4 + v2 / 16)] else none
      else
        match idxOf c3 with
        | some v3 =>
          if c4 = '=' then
            if rest = [] then
              some [byteOf (v1 * 4 + v2 / 16), byteOf (v2 % 16 * 16 + v3 / 4)]
            else none
          else
            match idxOf c4 with
            | some v4 =>
              match b64DecL rest with
              | some bs =>
                some (byteOf (v1 * 4 + v2 / 16) :: byteOf (v2 % 16 * 16 + v3 / 4) ::
                  byteOf (v3 % 4 * 64 + v4) :: bs)
              | none => none
            | none => none
        | none => none
    | _, _ => none
  | _ => none

theorem b64DecL_b64EncL_le (n : Nat) :
    ∀ bs : List Byte, bs.length ≤ n → b64DecL (b64EncL bs) = some bs := by
  induction n with
  | zero =>
    intro bs h
    have : bs = [] := List.eq_nil_of_length_eq_zero (by omega)
    subst this
    rfl
  | succ n ih =>
    intro bs hlen
    match bs with
    | [] => rfl
    | [b1] =>
      show b64DecL [idx64 (b1.val / 4), idx64 (b1.val % 4 * 16), '=', '='] = some [b1]
      have h1 : b1.val / 4 < 64 := by omega
      have h2 : b1.val % 4 * 16 < 64 := by omega
      simp only [b64DecL, idxOf_idx64 _ h1, idxOf_idx64 _ h2]
      have hb : byteOf (b1.val / 4 * 4 + b1.val % 4 * 16 / 16) = b1 := by
        apply Fin.ext
        rw [byteOf_val _ (by omega)]
        omega
      rw [hb]
      simp
    | [b1, b2] =>
      show b64DecL [idx64 (b1.val / 4), idx64 (b1.val % 4 * 16 + b2.val / 16),
        idx64 (b2.val % 16 * 4), '='] = some [b1, b2]
      have h1 : b1.val / 4 < 64 := by omega
      have h2 : b1.val % 4 * 16 + b2.val / 16 < 64 := by omega
      have h3 : b2.val % 16 * 4 < 64 := by omega
      simp only [b64DecL, idxOf_idx64 _ h1, idxOf_idx64 _ h2, idxOf_idx64 _ h3,
        if_neg (idx64_ne_pad _ h3)]
      have hb1 : byteOf (b1.val / 4 * 4 + (b1.val % 4 * 16 + b2.val / 16) / 16) = b1 := by
        apply Fin.ext
        rw [byteOf_val _ (by omega)]
        omega
      have hb2 : byteOf ((b1.val % 4 * 16 + b2.val / 16) % 16 * 16 + b2.val % 16 * 4 / 4)
          = b2 := by
        apply Fin.ext
        rw [byteOf_val _ (by omega)]
        omega
      rw [hb1, hb2]
      simp
    | b1 :: b2 :: b3 :: rest =>
      show b64DecL (idx64 (b1.val / 4) :: idx64 (b1.val % 4 * 16 + b2.val / 16) ::
        idx64 (b2.val % 16 * 4 + b3.val / 64) :: idx64 (b3.val % 64) :: b64EncL rest) =
        some (b1 :: b2 :: b3 :: rest)
      have h1 : b1.val / 4 < 64 := by omega
      have h2 : b1.val % 4 * 16 + b2.val / 16 < 64 := by omega
      have h3 : b2.val % 16 * 4 + b3.val / 64 < 64 := by omega
      have h4 : b3.val % 64 < 64 := by omega
      have hrest : b64DecL (b64EncL rest) = some rest := by
        apply ih
        simp only [List.length_cons] at hlen
        omega
      simp only [b64DecL, idxOf_idx64 _ h1, idxOf_idx64 _ h2, idxOf_idx64 _ h3,
        idxOf_idx64 _ h4, if_neg (idx64_ne_pad _ h3), if_neg (idx64_ne_pad _ h4), hrest]
      have hb1 : byteOf (b1.val / 4 * 4 + (b1.val % 4 * 16 + b2.val / 16) / 16) = b1 := by
        apply Fin.ext
        rw [byteOf_val _ (by omega)]
        omega
      have hb2 : byteOf ((b1.val % 4 * 16 + b2.val / 16) % 16 * 16 +
          (b2.val % 16 * 4 + b3.val / 64) / 4) = b2 := by
        apply Fin.ext
        rw [byteOf_val _ (by omega)]
        omega
      have hb3 : byteOf ((b2.val % 16 * 4 + b3.val / 64) % 4 * 64 + b3.val % 64) = b3 := by
        apply Fin.ext
        rw [byteOf_val _ (by omega)]
        omega
      rw [hb1, hb2, hb3]

theorem b64DecL_b64EncL (bs : List Byte) : b64DecL (b64EncL bs) = some bs :=
  b64DecL_b64EncL_le bs.length bs (Nat.le_refl _)

/-- UTF-8 encoding of one character (modelled from the spec). -/
def utf8EncChar (c : Char) : List Byte :=
  if c.toNat < 0x80 then [byteOf c.toNat]
  else if c.toNat < 0x800 then
    [byteOf (0xC0 + c.toNat / 64), byteOf (0x80 + c.toNat % 64)]
  else if c.toNat < 0x10000 then
    [byteOf (0xE0 + c.toNat / 4096), byteOf (0x80 + c.toNat / 64 % 64),
     byteOf (0x80 + c.toNat % 64)]
  else
    [byteOf (0xF0 + c.toNat / 262144), byteOf (0x80 + c.toNat / 4096 % 64),
     byteOf (0x80 + c.toNat / 64 % 64), byteOf (0x80 + c.toNat % 64)]

/-- UTF-8 encoding of a character list (modelled from the spec). -/
def utf8EncL : List Char → List Byte
  | [] => []
  | c :: cs => utf8EncChar c ++ utf8EncL cs

/-- UTF-8 decoding (modelled from the spec); lenient about continuation
bytes, as the library is about its word-array views.  `fuel` bounds the
recursion; a step consumes at least one byte. -/
def utf8DecAux : Nat → List Byte → Option (List Char)
  | 0, _ => none
  | _ + 1, [] => some []
  | fuel + 1, b :: rest =>
    if b.val < 0x80 then
      match utf8DecAux fuel rest with
      | some cs => some (Char.ofNat b.val :: cs)
      | none => none
    else if b.val < 0xC0 then none
    else if b.val < 0xE0 then
      match rest with
      | b2 :: rest2 =>
        match utf8DecAux fuel rest2 with
        | some cs => some (Char.ofNat ((b.val - 0xC0) * 64 + (b2.val - 0x80)) :: cs)
        | none => none
      | [] => none
    else if b.val < 0xF0 then
      match rest with
      | b2 :: b3 :: rest3 =>
        match utf8DecAux fuel rest3 with
        | some cs =>
          some (Char.ofNat ((b.val - 0xE0) * 4096 + (b2.val - 0x80) * 64 +
            (b3.val - 0x80)) :: cs)
        | none => none
      | _ => none
    else
      match rest with
      | b2 :: b3 :: b4 :: rest4 =>
        match utf8DecAux fuel rest4 with
        | some cs =>
          some (Char.ofNat ((b.val - 0xF0) * 262144 + (b2.val - 0x80) * 4096 +
            (b3.val - 0x80) * 64 + (b4.val - 0x80)) :: cs)
        | none => none
      | _ => none

/-- UTF-8 decoding of a whole byte list. -/
def utf8DecL (bs : List Byte) : Option (List Char) := utf8DecAux (bs.length + 1) bs

theorem char_toNat_lt (c : Char) : c.toNat < 1114112 := by
  have h := c.valid
  show c.val.toNat < 1114112
  rcases h with h | h
  · have h2 : c.val.toNat < 0xd800 := h
    omega
  · exact h.2

theorem utf8DecAux_utf8EncL (cs : List Char) :
    ∀ fuel, (utf8EncL cs).length < fuel → utf8DecAux fuel (utf8EncL cs) = some cs := by
  induction cs with
  | nil =>
    intro fuel hf
    cases fuel with
    | zero => omega
    | succ m => rfl
  | cons c cs ih =>
    intro fuel hf
    have hn := char_toNat_lt c
    have hsplit : utf8EncL (c :: cs) = utf8EncChar c ++ utf8EncL cs := rfl
    rw [hsplit] at hf ⊢
    rw [List.length_append] at hf
    cases fuel with
    | zero =>
      rw [utf8EncChar] at hf
      by_cases h1 : c.toNat < 0x80
      · rw [if_pos h1] at hf
        simp at hf
      · rw [if_neg h1] at hf
        by_cases h2 : c.toNat < 0x800
        · rw [if_pos h2] at hf
          simp at hf
        · rw [if_neg h2] at hf
          by_cases h3 : c.toNat < 0x10000
          · rw [if_pos h3] at hf
            simp at hf
          · rw [if_neg h3] at hf
            simp at hf
    | succ m =>
      have hrest : utf8DecAux m (utf8EncL cs) = some cs := by
        apply ih
        have hpos : 1 ≤ (utf8EncChar c).length := by
          rw [utf8EncChar]
          by_cases h1 : c.toNat < 0x80
          · rw [if_pos h1]
            simp
          · rw [if_neg h1]
            by_cases h2 : c.toNat < 0x800
            · rw [if_pos h2]
              simp
            · rw [if_neg h2]
              by_cases h3 : c.toNat < 0x10000
              · rw [if_pos h3]
                simp
              · rw [if_neg h3]
                simp
        omega
      by_cases h1 : c.toNat < 0x80
      · rw [utf8EncChar, if_pos h1, List.cons_append, List.nil_append]
        simp only [utf8DecAux, byteOf_val c.toNat (by omega), if_pos h1, hrest,
          Char.ofNat_toNat]
      · by_cases h2 : c.toNat < 0x800
        · rw [utf8EncChar, if_neg h1, if_pos h2, List.cons_append, List.cons_append,
            List.nil_append]
          simp only [utf8DecAux, byteOf_val (0xC0 + c.toNat / 64) (by omega),
            byteOf_val (0x80 + c.toNat % 64) (by omega),
            if_neg (by omega : ¬(0xC0 + c.toNat / 64 < 0x80)),
            if_neg (by omega : ¬(0xC0 + c.toNat / 64 < 0xC0)),
            if_pos (by omega : 0xC0 + c.toNat / 64 < 0xE0), hrest]
          have hx : (0xC0 + c.toNat / 64 - 0xC0) * 64 + (0x80 + c.toNat % 64 - 0x80) =
              c.toNat := by omega
          rw [hx, Char.ofNat_toNat]
        · by_cases h3 : c.toNat < 0x10000
          · rw [utf8EncChar, if_neg h1, if_neg h2, if_pos h3, List.cons_append,
              List.cons_append, List.cons_append, List.nil_append]
            simp only [utf8DecAux, byteOf_val (0xE0 + c.toNat / 4096) (by omega),
              byteOf_val (0x80 + c.toNat / 64 % 64) (by omega),
              byteOf_val (0x80 + c.toNat % 64) (by omega),
              if_neg (by omega : ¬(0xE0 + c.toNat / 4096 < 0x80)),
              if_neg (by omega : ¬(0xE0 + c.toNat / 4096 < 0xC0)),
              if_neg (by omega : ¬(0xE0 + c.toNat / 4096 < 0xE0)),
              if_pos (by omega : 0xE0 + c.toNat / 4096 < 0xF0), hrest]
            have hx : (0xE0 + c.toNat / 4096 - 0xE0) * 4096 +
                (0x80 + c.toNat / 64 % 64 - 0x80) * 64 + (0x80 + c.toNat % 64 - 0x80) =
                c.toNat := by omega
            rw [hx, Char.ofNat_toNat]
          · rw [utf8EncChar, if_neg h1, if_neg h2, if_neg h3, List.cons_append,
              List.cons_append, List.cons_append, List.cons_append, List.nil_append]
            simp only [utf8DecAux, byteOf_val (0xF0 + c.toNat / 262144) (by omega),
              byteOf_val (0x80 + c.toNat / 4096 % 64) (by omega),
              byteOf_val (0x80 + c.toNat / 64 % 64) (by omega),
              byteOf_val (0x80 + c.toNat % 64) (by omega),
              if_neg (by omega : ¬(0xF0 + c.toNat / 262144 < 0x80)),
              if_neg (by omega : ¬(0xF0 + c.toNat / 262144 < 0xC0)),
              if_neg (by omega : ¬(0xF0 + c.toNat / 262144 < 0xE0)),
              if_neg (by omega : ¬(0xF0 + c.toNat / 262144 < 0xF0)), hrest]
            have hx : (0xF0 + c.toNat / 262144 - 0xF0) * 262144 +
                (0x80 + c.toNat / 4096 % 64 - 0x80) * 4096 +
                (0x80 + c.toNat / 64 % 64 - 0x80) * 64 + (0x80 + c.toNat % 64 - 0x80) =
                c.toNat := by omega
            rw [hx, Char.ofNat_toNat]

theorem utf8DecL_utf8EncL (cs : List Char) : utf8DecL (utf8EncL cs) = some cs :=
  utf8DecAux_utf8EncL cs ((utf8EncL cs).length + 1) (Nat.lt_succ_self _)

/-- The AES key words (renderer.js 10): the fixed 256-bit key the
renderer hands to the library.  The abstract `BlockCipher` stands for
the AES core keyed with these words. -/
def AES_KEY_WORDS : List Nat :=
  [2815074099, 1725469378, 4039046167, 874293617,
   3063605751, 3133984764, 4097598161, 3620741625]

/-- The fixed IV (renderer.js 12): the bytes of hex
7475383967656A693334307438397532. -/
def AES_IV : List Byte :=
  [byteOf 0x74, byteOf 0x75, byteOf 0x38, byteOf 0x39,
   byteOf 0x67, byteOf 0x65, byteOf 0x6A, byteOf 0x69,
   byteOf 0x33, byteOf 0x34, byteOf 0x30, byteOf 0x74,
   byteOf 0x38, byteOf 0x39, byteOf 0x75, byteOf 0x32]

/-- `CryptoJS.AES.encrypt` with an explicit key (modelled from the
spec): PKCS7-pad, then CBC.  When the caller passes no `iv`, the
library draws one from `entropy`; the renderer always passes the fixed
`AES_IV`, so `entropy` is never consulted by this program. -/
def cryptoEncrypt (C : BlockCipher) (ivOpt : Option (List Byte)) (entropy : List Byte)
    (msg : List Byte) : List Byte :=
  cbcEnc C (pkcs7pad msg).length (ivOpt.getD entropy) (pkcs7pad msg)

/-- `encryptSaveData` (renderer.js 206-218): AES-CBC with the fixed key
and `AES_IV` over the UTF-8 bytes of the JSON text, emitted as
Base64. -/
def encryptSaveData (C : BlockCipher) (entropy : List Byte) (jsonString : String) :
    String :=
  ⟨b64EncL (cryptoEncrypt C (some AES_IV) entropy (utf8EncL jsonString.data))⟩

/-- `decryptSaveData` (renderer.js 181-204): Base64-decode, CBC-decrypt
with the fixed key and `AES_IV`, unpad, read as UTF-8; any failure, or
an empty decrypted string (`if (!decryptedString)`), throws. -/
def decryptSaveData (C : BlockCipher) (base64Data : String) : Except Unit String :=
  match b64DecL base64Data.data with
  | none => .error ()
  | some ct =>
    match pkcs7unpad (cbcDec C ct.length AES_IV ct) with
    | none => .error ()
    | some msg =>
      match utf8DecL msg with
      | none => .error ()
      | some cs =>
        if (⟨cs⟩ : String) = "" then .error () else .ok ⟨cs⟩

/-- The identity block cipher: the least structure satisfying the
`BlockCipher` laws, enough to witness the codec at concrete inputs. -/
def idCipher : BlockCipher := ⟨fun b => b, fun b => b, fun _ h => h, fun _ _ => rfl⟩

/-- C1.  Amended: for every block cipher satisfying the AES laws, every
entropy stream and every non-empty text x, decrypting the encryption of
x returns x.  For the empty text the round trip fails: the decrypted
string is empty, so the `!decryptedString` check of `decryptSaveData`
throws instead of returning it. -/
theorem claim_C1 (C : BlockCipher) (entropy : List Byte) (s : String)
    (h : s ≠ "") : decryptSaveData C (encryptSaveData C entropy s) = .ok s := by
  have hmod : (pkcs7pad (utf8EncL s.data)).length % 16 = 0 := pkcs7pad_mod _
  have hiv : AES_IV.length = 16 := rfl
  have hct : (cryptoEncrypt C (some AES_IV) entropy (utf8EncL s.data)).length =
      (pkcs7pad (utf8EncL s.data)).length := by
    rw [cryptoEncrypt]
    exact cbcEnc_length C (pkcs7pad (utf8EncL s.data)).length AES_IV
      (pkcs7pad (utf8EncL s.data)) hiv hmod (by omega)
  have hdata : (encryptSaveData C entropy s).data =
      b64EncL (cryptoEncrypt C (some AES_IV) entropy (utf8EncL s.data)) := rfl
  have hdec : cbcDec C (cryptoEncrypt C (some AES_IV) entropy (utf8EncL s.data)).length
      AES_IV (cryptoEncrypt C (some AES_IV) entropy (utf8EncL s.data)) =
      pkcs7pad (utf8EncL s.data) := by
    rw [hct, cryptoEncrypt]
    exact cbcDec_cbcEnc C (pkcs7pad (utf8EncL s.data)).length
      (pkcs7pad (utf8EncL s.data)).length AES_IV (pkcs7pad (utf8EncL s.data))
      hiv hmod (by omega) (by omega)
  have hmk : (⟨s.data⟩ : String) = s := rfl
  rw [decryptSaveData, hdata]
  simp only [b64DecL_b64EncL, hdec, pkcs7unpad_pkcs7pad, utf8DecL_utf8EncL, hmk,
    if_neg h]

theorem claim_C1_witness : ("J" : String) ≠ "" ∧
    decryptSaveData idCipher (encryptSaveData idCipher [] "J") = .ok "J" :=
  ⟨by decide, claim_C1 idCipher [] "J" (by decide)⟩

/-- C1, counterexample to the spec as written: the empty string is a
valid UTF-8 text, but decrypting its encryption throws (the
`!decryptedString` check) instead of returning it. -/
theorem claim_C1_cex :
    decryptSaveData idCipher (encryptSaveData idCipher [] "") = .error () := by rfl

/-- C9.  `encryptSaveData` is deterministic: the renderer passes the
fixed `AES_IV` to the library, so the entropy the library would use to
draw a random IV is never consulted and two runs on the same text agree
byte for byte. -/
theorem claim_C9 (C : BlockCipher) (e1 e2 : List Byte) (s : String) :
    encryptSaveData C e1 s = encryptSaveData C e2 s := rfl


end FSSE

